import Mathlib

/-!
# Delegate.h : single-slot and multicast delegates

A shallow embedding of `src/Delegate.h` (namespace `xxd`) and theorems about it.

Modelling conventions

* Addresses (function pointers, object pointers, `this`) are natural numbers, `0` is the
  null pointer.  A pointer to member function is a natural number naming the member; the
  class `ClassT` of a template instantiation is a natural number as well, because
  `dynamic_cast` to `ObjFuncDelegate<ClassT, ...>` distinguishes instantiations by class.
* The declarations of the members that take a target object and a member function
  (`BindObject`, `BindSafeObj`, `AddObject`, `AddSafeObj` and the matching `Remove`
  overloads) spell the parameter type `ObjFuncDelegate<...>::FunT`, a name no class
  declares (the variant classes declare `FunType`), so no call of them is well-formed.
  `Member.callable` records this.  The definitions of these members below are their
  function bodies, as they read with `FunT` taken for `FunType`.
* User code is not part of the header.  It is a parameter `P : Program σ ε A R`: the
  behaviour of the code behind a `Callee` on arguments `A` in a heap, which either returns
  an `R` or raises an `ε`, and leaves a new heap.
* A `World` is the heap together with two logs kept by the embedding: `invoked`, the
  bound variants whose `operator()` was entered, and `calls`, the user code that was run.
* `std::unordered_map` is a list of nodes with pairwise different keys, iterated front to
  back.  Where the table places a new node is not fixed by the header: every insertion
  takes the position `slot` as a parameter.  An insertion may also rehash the table and
  relink the old nodes in another order, which the list does not show: what is stated
  across an insertion is stated up to the order of the nodes.
* `uint32_t` is `Nat` with an explicit `% 2 ^ 32` at the increment.
* `operator<<` on a stream is library code: unsigned integers print in decimal, pointers
  print as the GNU library does (`0` for null, else `0x` and lowercase hexadecimal).
-/

namespace xxd

/-! ## User code, heap and world -/

/-- Identity of the user code a bound variant runs. -/
inductive Callee where
  /-- `(*func)(args...)` : the free function at address `func`. -/
  | fn (func : Nat)
  /-- `(obj->*func)(args...)` : member `func` of class `cls` on the object at `obj`. -/
  | mfn (cls func obj : Nat)
  /-- `func(args...)` : the callable object stored by value, named `func`. -/
  | any (func : Nat)
deriving DecidableEq, Repr

/-- Heap: the program's own memory and, per control block, whether the owned object is
still alive (`use_count() != 0`). -/
structure Heap (σ : Type) where
  mem : σ
  live : Nat → Bool

/-- Model of `std::shared_ptr<ClassT>` : the control block it shares (`none` when empty)
and the stored pointer returned by `get()`. -/
structure SharedPtr where
  ctrl : Option Nat
  ptr : Nat
deriving DecidableEq, Repr

/-- Stored pointer, `get()`. -/
def SharedPtr.get (s : SharedPtr) : Nat := s.ptr

/-- Model of `std::weak_ptr<ClassT>` : the control block it observes and the stored
pointer. -/
structure WeakPtr where
  ctrl : Option Nat
  ptr : Nat
deriving DecidableEq, Repr

/-- Conversion `std::weak_ptr<ClassT>(objShared)`. -/
def WeakPtr.ofShared (s : SharedPtr) : WeakPtr := ⟨s.ctrl, s.ptr⟩

/-- Member `expired()` : no control block, or the owned object has been destroyed. -/
def WeakPtr.expired {σ : Type} (h : Heap σ) (w : WeakPtr) : Bool :=
  match w.ctrl with
  | none => true
  | some c => !h.live c

/-- Member `lock()` : an empty shared pointer when expired, else a shared pointer to the
target. -/
def WeakPtr.lock {σ : Type} (h : Heap σ) (w : WeakPtr) : SharedPtr :=
  if w.expired h then ⟨none, 0⟩ else ⟨w.ctrl, w.ptr⟩

/-! ## The four callable shape variants -/

/-- The variants behind `DelegateInterface::IDelegate<ReturnT, ArgsT...>`, with the data
members each one stores. -/
inductive IDelegate where
  /-- `ObjFuncDelegate<ClassT, ...>` : `obj`, `func`. -/
  | ObjFuncDelegate (cls : Nat) (obj : Nat) (func : Nat)
  /-- `FuncDelegate<...>` : `func`. -/
  | FuncDelegate (func : Nat)
  /-- `ObjFuncSafeDelegate<ClassT, ...>` : weak `obj`, `func`. -/
  | ObjFuncSafeDelegate (cls : Nat) (obj : WeakPtr) (func : Nat)
  /-- `AnyFunDelegate<AnyFunT, ...>` : the stored callable `func`. -/
  | AnyFunDelegate (func : Nat)
deriving DecidableEq, Repr

/-- Behaviour of user code: result (a value or a raised failure) and the heap it leaves. -/
abbrev Program (σ ε A R : Type) := Callee → A → Heap σ → Except ε R × Heap σ

/-- Heap plus the two logs of the embedding. -/
structure World (σ A : Type) where
  heap : Heap σ
  calls : List (Callee × A)
  invoked : List (IDelegate × A)

/-- Run user code `c` on `args`: the call is logged, the heap is the one the code leaves. -/
def World.call {σ ε A R : Type} (P : Program σ ε A R) (c : Callee) (args : A)
    (w : World σ A) : Except ε R × World σ A :=
  ((P c args w.heap).1,
    { heap := (P c args w.heap).2, calls := w.calls ++ [(c, args)], invoked := w.invoked })

/-- Entering `operator()` of a bound variant is logged. -/
def World.enter {σ A : Type} (d : IDelegate) (args : A) (w : World σ A) : World σ A :=
  { w with invoked := w.invoked ++ [(d, args)] }

/-- The virtual `operator()` of the four variants. `ReturnT()` is `default`. -/
def IDelegate.invoke {σ ε A R : Type} [Inhabited R] (P : Program σ ε A R) (d : IDelegate)
    (args : A) (w : World σ A) : Except ε R × World σ A :=
  match d with
  | .ObjFuncDelegate cls obj func => (w.enter d args).call P (.mfn cls func obj) args
  | .FuncDelegate func => (w.enter d args).call P (.fn func) args
  | .ObjFuncSafeDelegate cls obj func =>
    if !obj.expired w.heap then
      (w.enter d args).call P (.mfn cls func (obj.lock w.heap).get) args
    else
      (.ok default, w.enter d args)
  | .AnyFunDelegate func => (w.enter d args).call P (.any func) args

/-! ## SingleDelegate -/

/-- `SingleDelegate<ReturnT, ArgsT...>` : the slot `dlgtPtr`, `none` when null. -/
structure SingleDelegate where
  dlgtPtr : Option IDelegate
deriving DecidableEq, Repr

namespace SingleDelegate

/-- Default constructor: the slot is null. -/
def new : SingleDelegate := ⟨none⟩

/-- `BindFunction(fun)`. -/
def BindFunction (_d : SingleDelegate) (func : Nat) : SingleDelegate :=
  ⟨some (.FuncDelegate func)⟩

/-- `BindObject(obj, objFun)` for class `cls` (function body; the declaration names `FunT`,
see `Member.callable`). -/
def BindObject (_d : SingleDelegate) (cls obj objFun : Nat) : SingleDelegate :=
  ⟨some (.ObjFuncDelegate cls obj objFun)⟩

/-- `BindSafeObj(objShared, objFun)` for class `cls` (function body; the declaration names
`FunT`, see `Member.callable`). -/
def BindSafeObj (_d : SingleDelegate) (cls : Nat) (objShared : SharedPtr) (objFun : Nat) :
    SingleDelegate :=
  ⟨some (.ObjFuncSafeDelegate cls (WeakPtr.ofShared objShared) objFun)⟩

/-- `BindSafeObj(objWeak, objFun)` for class `cls`, the weak-pointer overload (function
body; the declaration names `FunT`, see `Member.callable`). -/
def BindSafeObjWeak (_d : SingleDelegate) (cls : Nat) (objWeak : WeakPtr) (objFun : Nat) :
    SingleDelegate :=
  ⟨some (.ObjFuncSafeDelegate cls objWeak objFun)⟩

/-- `BindAnyFunc(func)`. -/
def BindAnyFunc (_d : SingleDelegate) (func : Nat) : SingleDelegate :=
  ⟨some (.AnyFunDelegate func)⟩

/-- `Invoke(args...)` : `dlgtPtr.get() ? (*dlgtPtr)(args...) : ReturnT()`. -/
def Invoke {σ ε A R : Type} [Inhabited R] (P : Program σ ε A R) (d : SingleDelegate)
    (args : A) (w : World σ A) : Except ε R × World σ A :=
  match d.dlgtPtr with
  | some p => p.invoke P args w
  | none => (.ok default, w)

/-- `UnBind()` : `dlgtPtr.reset()`. -/
def UnBind (_d : SingleDelegate) : SingleDelegate := ⟨none⟩

end SingleDelegate

/-! ## DelegateHandle -/

/-- Stream output of an unsigned integer: decimal digits. -/
def showUInt (n : Nat) : List Char := Nat.toDigits 10 n

/-- Stream output of a `void*` : `0` for null, else `0x` and the hexadecimal digits. -/
def showPtr (p : Nat) : List Char :=
  if p = 0 then ['0'] else '0' :: 'x' :: Nat.toDigits 16 p

/-- `DelegateHandle` : category tag, id, owning delegate, bound address. -/
structure DelegateHandle where
  tdlgt : Nat
  idlgt : Nat
  pdlgt : Nat
  bind : Nat
deriving DecidableEq, Repr

/-- `ToString()` : `ss << tdlgt << idlgt << pdlgt << bind`. -/
def DelegateHandle.ToString (h : DelegateHandle) : String :=
  String.mk (showUInt h.tdlgt ++ showUInt h.idlgt ++ showPtr h.pdlgt ++ showPtr h.bind)

/-! ## The keyed collection -/

/-- Put `x` at position `n` of `l` (at the end when `l` is shorter). -/
def insertAt {α : Type} (x : α) : Nat → List α → List α
  | 0, l => x :: l
  | _ + 1, [] => [x]
  | n + 1, y :: ys => y :: insertAt x n ys

/-- Model of `std::unordered_map<std::string, V>` : the nodes in iteration order, keys
pairwise different. -/
structure UnorderedMap (V : Type) where
  nodes : List (String × V)
  unique : (nodes.map Prod.fst).Nodup

namespace UnorderedMap

variable {V : Type}

/-- The empty map. -/
def empty : UnorderedMap V := ⟨[], List.nodup_nil⟩

/-- `m[k] = v` : assigns to the node with key `k` when there is one, else inserts a new
node, which the table places at position `slot`. (A rehash on insertion, which relinks the
old nodes in another order, is not shown.) -/
def assign (m : UnorderedMap V) (slot : Nat) (k : String) (v : V) : UnorderedMap V :=
  if h : k ∈ m.nodes.map Prod.fst then
    ⟨m.nodes.map (fun e => if e.1 = k then (k, v) else e), by
      have hmap : (m.nodes.map (fun e => if e.1 = k then (k, v) else e)).map Prod.fst
          = m.nodes.map Prod.fst := by
        rw [List.map_map]
        apply List.map_congr_left
        intro e _
        by_cases he : e.1 = k <;> simp [he]
      rw [hmap]; exact m.unique⟩
  else
    ⟨insertAt (k, v) slot m.nodes, by
      have hperm : ∀ (n : Nat) (l : List (String × V)),
          (insertAt (k, v) n l).Perm ((k, v) :: l) := by
        intro n l
        induction l generalizing n with
        | nil => cases n <;> simp [insertAt]
        | cons y ys ih =>
          cases n with
          | zero => simp [insertAt]
          | succ n =>
            simp only [insertAt]
            exact ((ih n).cons y).trans (List.Perm.swap (k, v) y ys)
      rw [((hperm slot m.nodes).map Prod.fst).nodup_iff]
      exact List.nodup_cons.mpr ⟨h, m.unique⟩⟩

/-- `m.erase(k)` : removes the node with key `k`; the result is the number of nodes
removed and the map left. -/
def erase (m : UnorderedMap V) (k : String) : Nat × UnorderedMap V :=
  ((m.nodes.filter (fun e => decide (e.1 = k))).length,
    ⟨m.nodes.filter (fun e => decide (e.1 ≠ k)),
      (List.filter_sublist m.nodes).map Prod.fst |>.nodup m.unique⟩)

/-- `m.erase(it)` : removes the node the iterator points to (an iterator is the node it
points to, found again by its key, keys being pairwise different). -/
def eraseIt (m : UnorderedMap V) (it : String × V) : UnorderedMap V :=
  (m.erase it.1).2

/-- `m.clear()`. -/
def clear (_m : UnorderedMap V) : UnorderedMap V := empty

end UnorderedMap

/-! ## MultiDelegate -/

/-- `MultiDelegate<ArgsT...>` : its own address (`this`), the id counter `dlgtId` and the
keyed collection `dlgtMap`. -/
structure MultiDelegate where
  self : Nat
  dlgtId : Nat
  dlgtMap : UnorderedMap IDelegate

namespace MultiDelegate

/-- Defaulted constructor of the delegate at address `self`. `dlgtId` has no initialiser:
it holds whatever 32-bit value `init` the storage held (`0` when the object is
value-initialised). -/
def new (self init : Nat) : MultiDelegate :=
  ⟨self, init % 2 ^ 32, UnorderedMap.empty⟩

/-- `AddFunction(fun)`. -/
def AddFunction (d : MultiDelegate) (slot : Nat) (func : Nat) :
    DelegateHandle × MultiDelegate :=
  let handle : DelegateHandle := ⟨0, d.dlgtId, d.self, func⟩
  (handle, { d with
    dlgtId := (d.dlgtId + 1) % 2 ^ 32
    dlgtMap := d.dlgtMap.assign slot handle.ToString (.FuncDelegate func) })

/-- `AddObject(obj, objFun)` for class `cls` (function body; the declaration names `FunT`,
see `Member.callable`). -/
def AddObject (d : MultiDelegate) (slot : Nat) (cls obj objFun : Nat) :
    DelegateHandle × MultiDelegate :=
  let handle : DelegateHandle := ⟨1, d.dlgtId, d.self, obj⟩
  (handle, { d with
    dlgtId := (d.dlgtId + 1) % 2 ^ 32
    dlgtMap := d.dlgtMap.assign slot handle.ToString (.ObjFuncDelegate cls obj objFun) })

/-- `AddSafeObj(objShared, objFun)` for class `cls` (function body; the declaration names
`FunT`, see `Member.callable`). -/
def AddSafeObj (d : MultiDelegate) (slot : Nat) (cls : Nat) (objShared : SharedPtr)
    (objFun : Nat) : DelegateHandle × MultiDelegate :=
  let handle : DelegateHandle := ⟨2, d.dlgtId, d.self, objShared.get⟩
  (handle, { d with
    dlgtId := (d.dlgtId + 1) % 2 ^ 32
    dlgtMap := d.dlgtMap.assign slot handle.ToString
      (.ObjFuncSafeDelegate cls (WeakPtr.ofShared objShared) objFun) })

/-- `AddSafeObj(objWeak, objFun)` for class `cls`, the weak-pointer overload, in heap `h`
(function body; the declaration names `FunT`, see `Member.callable`). -/
def AddSafeObjWeak {σ : Type} (h : Heap σ) (d : MultiDelegate) (slot : Nat) (cls : Nat)
    (objWeak : WeakPtr) (objFun : Nat) : DelegateHandle × MultiDelegate :=
  let handle : DelegateHandle := ⟨2, d.dlgtId, d.self, (objWeak.lock h).get⟩
  (handle, { d with
    dlgtId := (d.dlgtId + 1) % 2 ^ 32
    dlgtMap := d.dlgtMap.assign slot handle.ToString
      (.ObjFuncSafeDelegate cls objWeak objFun) })

/-- `AddAnyFunc(func)`. -/
def AddAnyFunc (d : MultiDelegate) (slot : Nat) (func : Nat) :
    DelegateHandle × MultiDelegate :=
  let handle : DelegateHandle := ⟨4, d.dlgtId, d.self, 0⟩
  (handle, { d with
    dlgtId := (d.dlgtId + 1) % 2 ^ 32
    dlgtMap := d.dlgtMap.assign slot handle.ToString (.AnyFunDelegate func) })

/-- The loop of `BroadCast` over the nodes still to visit: a failure raised by an entry
leaves the loop. -/
def broadCastLoop {σ ε A : Type} (P : Program σ ε A Unit) (args : A) :
    List (String × IDelegate) → World σ A → Except ε Unit × World σ A
  | [], w => (.ok (), w)
  | it :: rest, w =>
    match it.2.invoke P args w with
    | (.ok _, w1) => broadCastLoop P args rest w1
    | (.error e, w1) => (.error e, w1)

/-- `BroadCast(args...)` : `for (const auto& it : dlgtMap) (*(it.second))(args...)`. -/
def BroadCast {σ ε A : Type} (P : Program σ ε A Unit) (d : MultiDelegate) (args : A)
    (w : World σ A) : Except ε Unit × World σ A :=
  broadCastLoop P args d.dlgtMap.nodes w

/-- `Remove(handle)` : `dlgtMap.erase(handle.ToString())`, converted to `bool`. -/
def Remove (d : MultiDelegate) (handle : DelegateHandle) : Bool × MultiDelegate :=
  let key := handle.ToString
  (decide ((d.dlgtMap.erase key).1 ≠ 0), { d with dlgtMap := (d.dlgtMap.erase key).2 })

/-- The private `Remove(rmLambda)` : collects the iterators `rmLambda` accepts, then erases
them. -/
def RemoveIf (d : MultiDelegate) (rmLambda : String × IDelegate → Bool) :
    Bool × MultiDelegate :=
  let deleteIts := d.dlgtMap.nodes.filter rmLambda
  let rmSuccess := decide (deleteIts.length ≠ 0)
  if rmSuccess then
    (rmSuccess, { d with
      dlgtMap := deleteIts.foldl (fun m dlgtIt => m.eraseIt dlgtIt) d.dlgtMap })
  else
    (rmSuccess, d)

/-- `Remove(objFun)` for a function pointer. -/
def RemoveFunction (d : MultiDelegate) (objFun : Nat) : Bool × MultiDelegate :=
  d.RemoveIf (fun it =>
    match it.2 with
    | .FuncDelegate func => decide (func = objFun)
    | _ => false)

/-- `Remove(obj, objFun)` for class `cls` (function body; the declaration names `FunT`,
see `Member.callable`). -/
def RemoveObject (d : MultiDelegate) (cls obj objFun : Nat) : Bool × MultiDelegate :=
  d.RemoveIf (fun it =>
    match it.2 with
    | .ObjFuncDelegate c o func => decide (c = cls) && decide (func = objFun) && decide (o = obj)
    | _ => false)

/-- `Remove(objShared, objFun)` for class `cls`, in heap `h` (function body; the
declaration names `FunT`, see `Member.callable`). -/
def RemoveSafeObj {σ : Type} (h : Heap σ) (d : MultiDelegate) (cls : Nat)
    (objShared : SharedPtr) (objFun : Nat) : Bool × MultiDelegate :=
  d.RemoveIf (fun it =>
    match it.2 with
    | .ObjFuncSafeDelegate c o func =>
      decide (c = cls) && decide (func = objFun) && decide ((o.lock h).get = objShared.get)
    | _ => false)

/-- `Remove(objWeak, objFun)` for class `cls`, the weak-pointer overload, in heap `h`
(function body; the declaration names `FunT`, see `Member.callable`). -/
def RemoveSafeObjWeak {σ : Type} (h : Heap σ) (d : MultiDelegate) (cls : Nat)
    (objWeak : WeakPtr) (objFun : Nat) : Bool × MultiDelegate :=
  if !objWeak.expired h then d.RemoveSafeObj h cls (objWeak.lock h) objFun else (false, d)

/-- `Clear()`. -/
def Clear (d : MultiDelegate) : MultiDelegate :=
  { d with dlgtMap := d.dlgtMap.clear }

end MultiDelegate

/-! ## Sequences of operations -/

/-- One bind operation on a single-slot delegate. -/
inductive BindOp where
  | BindFunction (func : Nat)
  | BindObject (cls obj objFun : Nat)
  | BindSafeObj (cls : Nat) (objShared : SharedPtr) (objFun : Nat)
  | BindSafeObjWeak (cls : Nat) (objWeak : WeakPtr) (objFun : Nat)
  | BindAnyFunc (func : Nat)
deriving DecidableEq, Repr

namespace BindOp

/-- Perform the bind operation. -/
def run (op : BindOp) (d : SingleDelegate) : SingleDelegate :=
  match op with
  | .BindFunction func => d.BindFunction func
  | .BindObject cls obj objFun => d.BindObject cls obj objFun
  | .BindSafeObj cls objShared objFun => d.BindSafeObj cls objShared objFun
  | .BindSafeObjWeak cls objWeak objFun => d.BindSafeObjWeak cls objWeak objFun
  | .BindAnyFunc func => d.BindAnyFunc func

/-- The callable handed to the bind operation. -/
def callee (op : BindOp) : Callee :=
  match op with
  | .BindFunction func => .fn func
  | .BindObject cls obj objFun => .mfn cls objFun obj
  | .BindSafeObj cls objShared objFun => .mfn cls objFun objShared.get
  | .BindSafeObjWeak cls objWeak objFun => .mfn cls objFun objWeak.ptr
  | .BindAnyFunc func => .any func

/-- The target of a lifetime-checked bind is alive in heap `h` (other binds have no
lifetime check). -/
def targetLive {σ : Type} (h : Heap σ) (op : BindOp) : Bool :=
  match op with
  | .BindSafeObj _ objShared _ => !(WeakPtr.ofShared objShared).expired h
  | .BindSafeObjWeak _ objWeak _ => !objWeak.expired h
  | _ => true

end BindOp

/-! ## Small programs and worlds for concrete instances -/

/-- User code over a counter: every callable adds one to the counter and returns its
argument plus the counter it found, except the free function at address `13`, which
raises. -/
def counterProgram : Program Nat String Nat Nat := fun c args h =>
  match c with
  | .fn 13 => (.error "raised", h)
  | _ => (.ok (args + h.mem), { h with mem := h.mem + 1 })

/-- The same user code for callables that return no value. -/
def counterProgramVoid : Program Nat String Nat Unit := fun c _ h =>
  match c with
  | .fn 13 => (.error "raised", h)
  | _ => (.ok (), { h with mem := h.mem + 1 })

/-- A world whose counter is `10`, where only control block `1` still owns its object,
with empty logs. -/
def world10 : World Nat Nat := ⟨⟨10, fun c => c == 1⟩, [], []⟩

/-! ## Notions used in the statements -/

/-- The user code a bound variant runs (a lifetime-checked variant: on the address it
stores, when its target is alive). -/
def IDelegate.callee (d : IDelegate) : Callee :=
  match d with
  | .ObjFuncDelegate cls obj func => .mfn cls func obj
  | .FuncDelegate func => .fn func
  | .ObjFuncSafeDelegate cls obj func => .mfn cls func obj.ptr
  | .AnyFunDelegate func => .any func

/-- A lifetime-checked variant whose target is destroyed in heap `h`. -/
def IDelegate.dead {σ : Type} (h : Heap σ) (d : IDelegate) : Bool :=
  match d with
  | .ObjFuncSafeDelegate _ obj _ => obj.expired h
  | _ => false

/-- One add operation on a multicast delegate, with the position at which the table
places the new node. -/
inductive AddOp where
  | AddFunction (slot func : Nat)
  | AddObject (slot cls obj objFun : Nat)
  | AddSafeObj (slot cls : Nat) (objShared : SharedPtr) (objFun : Nat)
  | AddSafeObjWeak (slot cls : Nat) (objWeak : WeakPtr) (objFun : Nat)
  | AddAnyFunc (slot func : Nat)
deriving DecidableEq, Repr

namespace AddOp

/-- Perform the add operation in heap `h`: the handle returned and the delegate left. -/
def run {σ : Type} (h : Heap σ) (op : AddOp) (d : MultiDelegate) :
    DelegateHandle × MultiDelegate :=
  match op with
  | .AddFunction slot func => d.AddFunction slot func
  | .AddObject slot cls obj objFun => d.AddObject slot cls obj objFun
  | .AddSafeObj slot cls objShared objFun => d.AddSafeObj slot cls objShared objFun
  | .AddSafeObjWeak slot cls objWeak objFun => d.AddSafeObjWeak h slot cls objWeak objFun
  | .AddAnyFunc slot func => d.AddAnyFunc slot func

/-- The variant the add operation registers. -/
def variant (op : AddOp) : IDelegate :=
  match op with
  | .AddFunction _ func => .FuncDelegate func
  | .AddObject _ cls obj objFun => .ObjFuncDelegate cls obj objFun
  | .AddSafeObj _ cls objShared objFun =>
    .ObjFuncSafeDelegate cls (WeakPtr.ofShared objShared) objFun
  | .AddSafeObjWeak _ cls objWeak objFun => .ObjFuncSafeDelegate cls objWeak objFun
  | .AddAnyFunc _ func => .AnyFunDelegate func

/-- The callable handed to the add operation. -/
def callee (op : AddOp) : Callee := op.variant.callee

/-- The add is one of `AddFunction`, `AddObject`, `AddAnyFunc` (no lifetime check). -/
def plain (op : AddOp) : Bool :=
  match op with
  | .AddSafeObj _ _ _ _ => false
  | .AddSafeObjWeak _ _ _ _ => false
  | _ => true

/-- The position the table gives the new node. -/
def slot (op : AddOp) : Nat :=
  match op with
  | .AddFunction slot _ => slot
  | .AddObject slot _ _ _ => slot
  | .AddSafeObj slot _ _ _ => slot
  | .AddSafeObjWeak slot _ _ _ => slot
  | .AddAnyFunc slot _ => slot

/-- The handle the add operation issues on delegate `d` in heap `h`. -/
def handle {σ : Type} (h : Heap σ) (op : AddOp) (d : MultiDelegate) : DelegateHandle :=
  match op with
  | .AddFunction _ func => ⟨0, d.dlgtId, d.self, func⟩
  | .AddObject _ _ obj _ => ⟨1, d.dlgtId, d.self, obj⟩
  | .AddSafeObj _ _ objShared _ => ⟨2, d.dlgtId, d.self, objShared.get⟩
  | .AddSafeObjWeak _ _ objWeak _ => ⟨2, d.dlgtId, d.self, (objWeak.lock h).get⟩
  | .AddAnyFunc _ _ => ⟨4, d.dlgtId, d.self, 0⟩

end AddOp

/-- Perform the add operations `ops` in turn, in heap `h`. -/
def MultiDelegate.addAll {σ : Type} (h : Heap σ) (ops : List AddOp) (d : MultiDelegate) :
    MultiDelegate :=
  ops.foldl (fun acc op => (op.run h acc).2) d

/-- Add the free function `func` and remove it again through the handle, `n` times. -/
def MultiDelegate.churn (func : Nat) : Nat → MultiDelegate → MultiDelegate
  | 0, d => d
  | n + 1, d =>
    MultiDelegate.churn func n ((d.AddFunction 0 func).2.Remove (d.AddFunction 0 func).1).2

/-- Value of a digit character. -/
def digitValue (c : Char) : Nat :=
  if c.toNat < 58 then c.toNat - 48 else c.toNat - 87

/-- Value of a digit string in base `b`. -/
def digitsValue (b : Nat) (l : List Char) : Nat :=
  l.foldl (fun acc c => acc * b + digitValue c) 0

/-- The variant is lifetime-checked, of class `cls`, bound to member function `m`, and its
weak reference yields address `p` when locked in heap `h` (the null address when its target
is destroyed). -/
def IDelegate.locksTo {σ : Type} (h : Heap σ) (cls m p : Nat) (d : IDelegate) : Bool :=
  match d with
  | .ObjFuncSafeDelegate c o func =>
    decide (c = cls) && decide (func = m) && decide ((if o.expired h then 0 else o.ptr) = p)
  | _ => false

/-- Category of a bound variant, numbered like the category tag of the handles: `0` plain
function, `1` method on a raw pointer, `2` lifetime-checked method, `4` arbitrary
callable. -/
def IDelegate.category (d : IDelegate) : Nat :=
  match d with
  | .FuncDelegate _ => 0
  | .ObjFuncDelegate _ _ _ => 1
  | .ObjFuncSafeDelegate _ _ _ => 2
  | .AnyFunDelegate _ => 4

/-- One operation that changes a multicast delegate: an add, a removal or `Clear`. -/
inductive Op where
  | add (op : AddOp)
  | remove (handle : DelegateHandle)
  | removeFunction (objFun : Nat)
  | removeObject (cls obj objFun : Nat)
  | removeSafeObj (cls : Nat) (objShared : SharedPtr) (objFun : Nat)
  | removeSafeObjWeak (cls : Nat) (objWeak : WeakPtr) (objFun : Nat)
  | clear
deriving DecidableEq, Repr

namespace Op

/-- Perform the operation in heap `h`: the delegate left. -/
def run {σ : Type} (h : Heap σ) (o : Op) (d : MultiDelegate) : MultiDelegate :=
  match o with
  | .add op => (op.run h d).2
  | .remove handle => (d.Remove handle).2
  | .removeFunction objFun => (d.RemoveFunction objFun).2
  | .removeObject cls obj objFun => (d.RemoveObject cls obj objFun).2
  | .removeSafeObj cls objShared objFun => (d.RemoveSafeObj h cls objShared objFun).2
  | .removeSafeObjWeak cls objWeak objFun => (d.RemoveSafeObjWeak h cls objWeak objFun).2
  | .clear => d.Clear

/-- The operation is an add. -/
def isAdd (o : Op) : Bool :=
  match o with
  | .add _ => true
  | _ => false

end Op

/-- Perform the operations `steps` in turn, each in the heap of its time. -/
def MultiDelegate.runOps {σ : Type} (steps : List (Heap σ × Op)) (d : MultiDelegate) :
    MultiDelegate :=
  steps.foldl (fun acc s => s.2.run s.1 acc) d

/-- The handles the adds among `steps` return, in the order of the adds. -/
def MultiDelegate.issued {σ : Type} :
    List (Heap σ × Op) → MultiDelegate → List DelegateHandle
  | [], _ => []
  | (h, .add op) :: rest, d => (op.run h d).1 :: MultiDelegate.issued rest (op.run h d).2
  | (h, o) :: rest, d => MultiDelegate.issued rest (o.run h d)

/-- Number of adds among `steps`. -/
def MultiDelegate.addCount {σ : Type} (steps : List (Heap σ × Op)) : Nat :=
  steps.countP (fun s => s.2.isAdd)

/-! ## Declarations -/

/-- The variant class templates of `DelegateInterface`. -/
inductive VariantClass where
  | ObjFuncDelegate
  | FuncDelegate
  | ObjFuncSafeDelegate
  | AnyFunDelegate
deriving DecidableEq, Repr

/-- The member type names a variant class declares (`typedef ... FunType` in the three
classes that hold a function or member-function pointer). -/
def VariantClass.typedefs (c : VariantClass) : List String :=
  match c with
  | .ObjFuncDelegate => ["FunType"]
  | .FuncDelegate => ["FunType"]
  | .ObjFuncSafeDelegate => ["FunType"]
  | .AnyFunDelegate => []

/-- The members of `SingleDelegate` and `MultiDelegate` that bind, add or remove. -/
inductive Member where
  | BindFunction
  | BindObject
  | BindSafeObj
  | BindSafeObjWeak
  | BindAnyFunc
  | AddFunction
  | AddObject
  | AddSafeObj
  | AddSafeObjWeak
  | AddAnyFunc
  | Remove
  | RemoveFunction
  | RemoveObject
  | RemoveSafeObj
  | RemoveSafeObjWeak
deriving DecidableEq, Repr

/-- The qualified member type `Class<...>::Name` that the declaration of a member spells
for its function parameter, `none` when the parameter is a handle or a deduced callable
type. -/
def Member.paramType (m : Member) : Option (VariantClass × String) :=
  match m with
  | .BindFunction => some (.FuncDelegate, "FunType")
  | .BindObject => some (.ObjFuncDelegate, "FunT")
  | .BindSafeObj => some (.ObjFuncDelegate, "FunT")
  | .BindSafeObjWeak => some (.ObjFuncDelegate, "FunT")
  | .BindAnyFunc => none
  | .AddFunction => some (.FuncDelegate, "FunType")
  | .AddObject => some (.ObjFuncDelegate, "FunT")
  | .AddSafeObj => some (.ObjFuncDelegate, "FunT")
  | .AddSafeObjWeak => some (.ObjFuncDelegate, "FunT")
  | .AddAnyFunc => none
  | .Remove => none
  | .RemoveFunction => some (.FuncDelegate, "FunType")
  | .RemoveObject => some (.ObjFuncDelegate, "FunT")
  | .RemoveSafeObj => some (.ObjFuncDelegate, "FunT")
  | .RemoveSafeObjWeak => some (.ObjFuncDelegate, "FunT")

/-- A call of the member can be well-formed: the member type its declaration names is
declared by the class it is looked up in. -/
def Member.callable (m : Member) : Bool :=
  match m.paramType with
  | none => true
  | some (c, name) => decide (name ∈ c.typedefs)

/-! ## Stream output of numbers -/

theorem digitChar_ne_x : ∀ k, k < 16 → Nat.digitChar k ≠ 'x' := by
  decide

theorem x_not_mem_toDigitsCore (b : Nat) (hb : 0 < b) (hb16 : b ≤ 16) (fuel n : Nat)
    (ds : List Char) (h : 'x' ∉ ds) : 'x' ∉ Nat.toDigitsCore b fuel n ds := by
  induction fuel generalizing n ds with
  | zero => simpa [Nat.toDigitsCore] using h
  | succ f ih =>
    simp only [Nat.toDigitsCore]
    have hmod : n % b < 16 := lt_of_lt_of_le (Nat.mod_lt _ hb) hb16
    have hd : 'x' ∉ Nat.digitChar (n % b) :: ds := by
      simp only [List.mem_cons, not_or]
      exact ⟨fun e => digitChar_ne_x _ hmod e.symm, h⟩
    split
    · exact hd
    · exact ih _ _ hd

theorem x_not_mem_toDigits (b : Nat) (hb : 0 < b) (hb16 : b ≤ 16) (n : Nat) :
    'x' ∉ Nat.toDigits b n :=
  x_not_mem_toDigitsCore b hb hb16 _ _ [] (by simp)

theorem toDigitsCore_append (b : Nat) (fuel n : Nat) (ds : List Char) :
    Nat.toDigitsCore b fuel n ds = Nat.toDigitsCore b fuel n [] ++ ds := by
  induction fuel generalizing n ds with
  | zero => simp [Nat.toDigitsCore]
  | succ f ih =>
    simp only [Nat.toDigitsCore]
    split
    · simp
    · rw [ih _ (_ :: ds), ih _ [_]]; simp

theorem digitValue_digitChar : ∀ k, k < 16 → digitValue (Nat.digitChar k) = k := by
  decide

theorem digitsValue_toDigitsCore (b : Nat) (hb : 2 ≤ b) (hb16 : b ≤ 16) (fuel n : Nat)
    (hn : n < fuel) : digitsValue b (Nat.toDigitsCore b fuel n []) = n := by
  induction fuel generalizing n with
  | zero => omega
  | succ f ih =>
    simp only [Nat.toDigitsCore]
    have hmod : n % b < 16 := lt_of_lt_of_le (Nat.mod_lt _ (by omega)) hb16
    split
    · rename_i h0
      have : n % b = n := by
        rw [Nat.mod_eq_of_lt]
        exact (Nat.div_eq_zero_iff (by omega)).mp h0
      have hv := digitValue_digitChar _ hmod
      rw [this] at hv ⊢
      simp [digitsValue, hv]
    · rename_i h0
      rw [toDigitsCore_append]
      have hlt : n / b < f := by
        have : n / b < n := Nat.div_lt_self (by
          rcases Nat.eq_zero_or_pos n with h | h
          · subst h; simp at h0
          · exact h) hb
        omega
      have := ih (n / b) hlt
      unfold digitsValue at this ⊢
      rw [List.foldl_append, this]
      simp [digitValue_digitChar _ hmod, Nat.div_add_mod']

theorem toDigits_inj (b : Nat) (hb : 2 ≤ b) (hb16 : b ≤ 16) (n m : Nat)
    (h : Nat.toDigits b n = Nat.toDigits b m) : n = m := by
  have h1 := digitsValue_toDigitsCore b hb hb16 (n + 1) n (by omega)
  have h2 := digitsValue_toDigitsCore b hb hb16 (m + 1) m (by omega)
  unfold Nat.toDigits at h
  rw [h] at h1
  omega

theorem toDigits_small (t : Nat) (h : t < 10) : Nat.toDigits 10 t = [Nat.digitChar t] := by
  have : t / 10 = 0 := by omega
  have h2 : t % 10 = t := by omega
  simp [Nat.toDigits, Nat.toDigitsCore, this, h2]

theorem digitChar_inj_lt : ∀ a, a < 10 → ∀ b, b < 10 → Nat.digitChar a = Nat.digitChar b → a = b := by
  decide

theorem append_cons_split {α : Type} (c : α) (l1 l2 r1 r2 : List α) (h1 : c ∉ l1)
    (h2 : c ∉ l2) (h : l1 ++ c :: r1 = l2 ++ c :: r2) : l1 = l2 ∧ r1 = r2 := by
  induction l1 generalizing l2 with
  | nil =>
    cases l2 with
    | nil => simpa using h
    | cons y ys =>
      simp only [List.nil_append, List.cons_append, List.cons.injEq] at h
      exact absurd (by rw [← h.1]; simp) h2
  | cons x xs ih =>
    cases l2 with
    | nil =>
      simp only [List.nil_append, List.cons_append, List.cons.injEq] at h
      exact absurd (by rw [h.1]; simp) h1
    | cons y ys =>
      simp only [List.cons_append, List.cons.injEq] at h
      simp only [List.mem_cons, not_or] at h1 h2
      obtain ⟨e1, e2⟩ := ih ys h1.2 h2.2 h.2
      exact ⟨by rw [h.1, e1], e2⟩


theorem showPtr_inj_tail (a1 a2 b1 b2 : Nat)
    (h : Nat.toDigits 16 a1 ++ showPtr b1 = Nat.toDigits 16 a2 ++ showPtr b2) :
    a1 = a2 ∧ b1 = b2 := by
  have hx1 := x_not_mem_toDigits 16 (by decide) (by decide) a1
  have hx2 := x_not_mem_toDigits 16 (by decide) (by decide) a2
  have hz : ('x' : Char) ∉ ['0'] := by decide
  unfold showPtr at h
  by_cases e1 : b1 = 0 <;> by_cases e2 : b2 = 0
  · simp only [e1, e2, if_true] at h
    have := List.append_cancel_right h
    exact ⟨toDigits_inj 16 (by decide) (by decide) _ _ this, by rw [e1, e2]⟩
  · exfalso
    simp only [e1, e2, if_true, if_false] at h
    have hm : 'x' ∈ Nat.toDigits 16 a1 ++ ['0'] := by rw [h]; simp
    rcases List.mem_append.mp hm with hm | hm
    · exact hx1 hm
    · exact hz hm
  · exfalso
    simp only [e1, e2, if_true, if_false] at h
    have hm : 'x' ∈ Nat.toDigits 16 a2 ++ ['0'] := by rw [← h]; simp
    rcases List.mem_append.mp hm with hm | hm
    · exact hx2 hm
    · exact hz hm
  · simp only [e1, e2, if_false] at h
    have h' : (Nat.toDigits 16 a1 ++ ['0']) ++ 'x' :: Nat.toDigits 16 b1
        = (Nat.toDigits 16 a2 ++ ['0']) ++ 'x' :: Nat.toDigits 16 b2 := by
      simpa using h
    obtain ⟨e3, e4⟩ := append_cons_split 'x' _ _ _ _
      (by simp only [List.mem_append, not_or]; exact ⟨hx1, hz⟩)
      (by simp only [List.mem_append, not_or]; exact ⟨hx2, hz⟩) h'
    exact ⟨toDigits_inj 16 (by decide) (by decide) _ _ (List.append_cancel_right e3),
      toDigits_inj 16 (by decide) (by decide) _ _ e4⟩

theorem ToString_inj_of (h1 h2 : DelegateHandle) (t1 : h1.tdlgt < 10) (t2 : h2.tdlgt < 10)
    (p1 : h1.pdlgt ≠ 0) (p2 : h2.pdlgt ≠ 0) (h : h1.ToString = h2.ToString) : h1 = h2 := by
  obtain ⟨t, i, p, b⟩ := h1
  obtain ⟨t', i', p', b'⟩ := h2
  simp only at t1 t2 p1 p2
  have hx1 := x_not_mem_toDigits 10 (by decide) (by decide) i
  have hx2 := x_not_mem_toDigits 10 (by decide) (by decide) i'
  have hz : ('x' : Char) ∉ ['0'] := by decide
  have h := congrArg String.data h
  simp only [DelegateHandle.ToString, showUInt, toDigits_small t t1,
    toDigits_small t' t2] at h
  have hp : showPtr p = '0' :: 'x' :: Nat.toDigits 16 p := by simp [showPtr, p1]
  have hp' : showPtr p' = '0' :: 'x' :: Nat.toDigits 16 p' := by simp [showPtr, p2]
  rw [hp, hp'] at h
  simp only [List.cons_append, List.nil_append, List.cons.injEq, List.append_assoc] at h
  obtain ⟨hc, h⟩ := h
  have ht : t = t' := digitChar_inj_lt t t1 t' t2 hc
  have h' : (Nat.toDigits 10 i ++ ['0']) ++ 'x' :: (Nat.toDigits 16 p ++ showPtr b)
      = (Nat.toDigits 10 i' ++ ['0']) ++ 'x' :: (Nat.toDigits 16 p' ++ showPtr b') := by
    simpa using h
  obtain ⟨e3, e4⟩ := append_cons_split 'x' _ _ _ _
    (by simp only [List.mem_append, not_or]; exact ⟨hx1, hz⟩)
    (by simp only [List.mem_append, not_or]; exact ⟨hx2, hz⟩) h'
  have hi : i = i' := toDigits_inj 10 (by decide) (by decide) _ _ (List.append_cancel_right e3)
  obtain ⟨hpp, hbb⟩ := showPtr_inj_tail p p' b b' e4
  rw [ht, hi, hpp, hbb]

/-! ## Single-slot delegate -/

/-- C1. After any sequence of bind operations ending in `op` (whose target, when the bind
is lifetime-checked, is alive), `Invoke(args)` returns exactly what the callable bound by
`op` returns on `args`, leaves the heap that callable leaves, and the only user code run is
that callable, once: no callable bound earlier is invoked. -/
theorem SingleDelegate.invoke_last_bound {σ ε A R : Type} [Inhabited R]
    (P : Program σ ε A R) (d0 : SingleDelegate) (ops : List BindOp) (op : BindOp)
    (args : A) (w : World σ A) (hlive : op.targetLive w.heap = true) :
    (((ops ++ [op]).foldl (fun d o => o.run d) d0).Invoke P args w).1
        = (P op.callee args w.heap).1 ∧
    (((ops ++ [op]).foldl (fun d o => o.run d) d0).Invoke P args w).2.heap
        = (P op.callee args w.heap).2 ∧
    (((ops ++ [op]).foldl (fun d o => o.run d) d0).Invoke P args w).2.calls
        = w.calls ++ [(op.callee, args)] := by
  rw [List.foldl_append]
  cases op with
  | BindFunction func =>
    simp [BindOp.run, BindOp.callee, SingleDelegate.BindFunction, SingleDelegate.Invoke,
      IDelegate.invoke, World.call, World.enter]
  | BindObject cls obj objFun =>
    simp [BindOp.run, BindOp.callee, SingleDelegate.BindObject, SingleDelegate.Invoke,
      IDelegate.invoke, World.call, World.enter]
  | BindSafeObj cls objShared objFun =>
    have hl : WeakPtr.expired w.heap ⟨objShared.ctrl, objShared.ptr⟩ = false := by
      simpa [BindOp.targetLive, WeakPtr.ofShared] using hlive
    simp [BindOp.run, BindOp.callee, SingleDelegate.BindSafeObj, SingleDelegate.Invoke,
      IDelegate.invoke, World.call, World.enter, hl, WeakPtr.lock, SharedPtr.get,
      WeakPtr.ofShared]
  | BindSafeObjWeak cls objWeak objFun =>
    have hl : objWeak.expired w.heap = false := by
      simpa [BindOp.targetLive] using hlive
    simp [BindOp.run, BindOp.callee, SingleDelegate.BindSafeObjWeak, SingleDelegate.Invoke,
      IDelegate.invoke, World.call, World.enter, hl, WeakPtr.lock, SharedPtr.get]
  | BindAnyFunc func =>
    simp [BindOp.run, BindOp.callee, SingleDelegate.BindAnyFunc, SingleDelegate.Invoke,
      IDelegate.invoke, World.call, World.enter]

/-- Instance of C1: a free function, then a method on a raw pointer, then a method on a
shared target that is alive. -/
theorem SingleDelegate.invoke_last_bound_witness :
    (BindOp.BindSafeObj 2 ⟨some 1, 64⟩ 5).targetLive world10.heap = true ∧
    ((([BindOp.BindFunction 7, BindOp.BindObject 2 48 5] ++ [BindOp.BindSafeObj 2 ⟨some 1, 64⟩ 5]).foldl
        (fun d o => o.run d) SingleDelegate.new).Invoke counterProgram 3 world10).1
      = (counterProgram (BindOp.BindSafeObj 2 ⟨some 1, 64⟩ 5).callee 3 world10.heap).1 ∧
    ((([BindOp.BindFunction 7, BindOp.BindObject 2 48 5] ++ [BindOp.BindSafeObj 2 ⟨some 1, 64⟩ 5]).foldl
        (fun d o => o.run d) SingleDelegate.new).Invoke counterProgram 3 world10).2.heap
      = (counterProgram (BindOp.BindSafeObj 2 ⟨some 1, 64⟩ 5).callee 3 world10.heap).2 ∧
    ((([BindOp.BindFunction 7, BindOp.BindObject 2 48 5] ++ [BindOp.BindSafeObj 2 ⟨some 1, 64⟩ 5]).foldl
        (fun d o => o.run d) SingleDelegate.new).Invoke counterProgram 3 world10).2.calls
      = world10.calls ++ [((BindOp.BindSafeObj 2 ⟨some 1, 64⟩ 5).callee, 3)] :=
  ⟨by decide, SingleDelegate.invoke_last_bound counterProgram SingleDelegate.new
    [BindOp.BindFunction 7, BindOp.BindObject 2 48 5] (BindOp.BindSafeObj 2 ⟨some 1, 64⟩ 5)
    3 world10 (by decide)⟩

/-- C2. An unbound single-slot delegate, freshly constructed or after `UnBind` following
any sequence of binds, returns the default value of the return type on `Invoke(args)` and
leaves the world as it was: the heap is unchanged and nothing is invoked. -/
theorem SingleDelegate.invoke_unbound {σ ε A R : Type} [Inhabited R]
    (P : Program σ ε A R) (ops : List BindOp) (args : A) (w : World σ A) :
    SingleDelegate.new.Invoke P args w = (Except.ok default, w) ∧
    ((ops.foldl (fun d o => o.run d) SingleDelegate.new).UnBind).Invoke P args w
      = (Except.ok default, w) := by
  constructor <;> rfl

/-- C3. `ObjFuncSafeDelegate::operator()` : when the target has been destroyed the result
is the default value, the heap is unchanged and no user code is run; when the target still
exists the result and the heap are those of the bound method called on the address of that
target with the given arguments, and that call is the only user code run. -/
theorem IDelegate.invoke_ObjFuncSafeDelegate {σ ε A R : Type} [Inhabited R]
    (P : Program σ ε A R) (cls : Nat) (obj : WeakPtr) (func : Nat) (args : A)
    (w : World σ A) :
    (obj.expired w.heap = true →
      ((IDelegate.ObjFuncSafeDelegate cls obj func).invoke P args w).1 = Except.ok default ∧
      ((IDelegate.ObjFuncSafeDelegate cls obj func).invoke P args w).2.heap = w.heap ∧
      ((IDelegate.ObjFuncSafeDelegate cls obj func).invoke P args w).2.calls = w.calls) ∧
    (obj.expired w.heap = false →
      ((IDelegate.ObjFuncSafeDelegate cls obj func).invoke P args w).1
        = (P (.mfn cls func obj.ptr) args w.heap).1 ∧
      ((IDelegate.ObjFuncSafeDelegate cls obj func).invoke P args w).2.heap
        = (P (.mfn cls func obj.ptr) args w.heap).2 ∧
      ((IDelegate.ObjFuncSafeDelegate cls obj func).invoke P args w).2.calls
        = w.calls ++ [(.mfn cls func obj.ptr, args)]) := by
  constructor
  · intro h
    simp [IDelegate.invoke, h, World.enter]
  · intro h
    simp [IDelegate.invoke, h, World.enter, World.call, WeakPtr.lock, SharedPtr.get]

/-! ## The keyed collection: lemmas -/

theorem mem_insertAt {α : Type} (x y : α) (n : Nat) (l : List α) :
    y ∈ insertAt x n l ↔ y = x ∨ y ∈ l := by
  induction l generalizing n with
  | nil => cases n <;> simp [insertAt]
  | cons z zs ih =>
    cases n with
    | zero => simp [insertAt]
    | succ n =>
      simp only [insertAt, List.mem_cons, ih]
      tauto

theorem insertAt_perm {α : Type} (x : α) (n : Nat) (l : List α) :
    (insertAt x n l).Perm (x :: l) := by
  induction l generalizing n with
  | nil => cases n <;> simp [insertAt]
  | cons y ys ih =>
    cases n with
    | zero => simp [insertAt]
    | succ n =>
      simp only [insertAt]
      exact ((ih n).cons y).trans (List.Perm.swap x y ys)

theorem filter_insertAt_fresh {V : Type} (k : String) (v : V) (n : Nat)
    (l : List (String × V)) (h : k ∉ l.map Prod.fst) :
    (insertAt (k, v) n l).filter (fun e => decide (e.1 ≠ k)) = l := by
  induction l generalizing n with
  | nil => cases n <;> simp [insertAt]
  | cons y ys ih =>
    simp only [List.map_cons, List.mem_cons, not_or] at h
    have hy : y.1 ≠ k := fun e => h.1 e.symm
    have hys : ys.filter (fun e => decide (e.1 ≠ k)) = ys := by
      rw [List.filter_eq_self]
      intro e he
      have : e.1 ≠ k := fun e' => h.2 (by rw [← e']; exact List.mem_map_of_mem _ he)
      simpa using this
    cases n with
    | zero =>
      rw [insertAt, List.filter_cons_of_neg (by simp),
        List.filter_cons_of_pos (by simpa using hy), hys]
    | succ n =>
      rw [insertAt, List.filter_cons_of_pos (by simpa using hy), ih n h.2]

namespace UnorderedMap

variable {V : Type}

theorem ext_nodes (m1 m2 : UnorderedMap V) (h : m1.nodes = m2.nodes) : m1 = m2 := by
  cases m1; cases m2; simp only at h; subst h; rfl

theorem assign_nodes_fresh (m : UnorderedMap V) (slot : Nat) (k : String) (v : V)
    (h : k ∉ m.nodes.map Prod.fst) :
    (m.assign slot k v).nodes = insertAt (k, v) slot m.nodes := by
  unfold assign
  rw [dif_neg h]

theorem assign_nodes_bound (m : UnorderedMap V) (slot : Nat) (k : String) (v : V)
    (h : k ∈ m.nodes.map Prod.fst) :
    (m.assign slot k v).nodes = m.nodes.map (fun e => if e.1 = k then (k, v) else e) := by
  unfold assign
  rw [dif_pos h]

theorem key_mem_assign (m : UnorderedMap V) (slot : Nat) (k : String) (v : V) :
    (k, v) ∈ (m.assign slot k v).nodes := by
  by_cases h : k ∈ m.nodes.map Prod.fst
  · rw [assign_nodes_bound m slot k v h]
    obtain ⟨e, he, hk⟩ := List.mem_map.mp h
    exact List.mem_map.mpr ⟨e, he, by simp [hk]⟩
  · rw [assign_nodes_fresh m slot k v h]
    exact (mem_insertAt _ _ _ _).mpr (Or.inl rfl)

theorem erase_assign_fresh (m : UnorderedMap V) (slot : Nat) (k : String) (v : V)
    (h : k ∉ m.nodes.map Prod.fst) : ((m.assign slot k v).erase k).2 = m := by
  apply ext_nodes
  show (m.assign slot k v).nodes.filter (fun e => decide (e.1 ≠ k)) = m.nodes
  rw [assign_nodes_fresh m slot k v h]
  exact filter_insertAt_fresh k v slot m.nodes h

theorem erase_count_ne_zero (m : UnorderedMap V) (k : String) :
    (m.erase k).1 ≠ 0 ↔ ∃ e ∈ m.nodes, e.1 = k := by
  show (m.nodes.filter (fun e => decide (e.1 = k))).length ≠ 0 ↔ _
  rw [Ne, List.length_eq_zero, List.filter_eq_nil_iff]
  simp

theorem erase_erase_count (m : UnorderedMap V) (k : String) :
    ((m.erase k).2.erase k).1 = 0 := by
  show ((m.nodes.filter (fun e => decide (e.1 ≠ k))).filter
    (fun e => decide (e.1 = k))).length = 0
  rw [List.length_eq_zero, List.filter_eq_nil_iff]
  intro e he
  have := (List.mem_filter.mp he).2
  simpa using this

/-- Erasing the nodes `dels` one after the other leaves the nodes whose key is not the
key of one of them. -/
theorem foldl_eraseIt_nodes (dels : List (String × V)) (m : UnorderedMap V) :
    (dels.foldl (fun acc it => acc.eraseIt it) m).nodes
      = m.nodes.filter (fun e => decide (e.1 ∉ dels.map Prod.fst)) := by
  induction dels generalizing m with
  | nil => simp
  | cons it rest ih =>
    rw [List.foldl_cons, ih]
    show (m.nodes.filter (fun e => decide (e.1 ≠ it.1))).filter _ = _
    rw [List.filter_filter]
    apply List.filter_congr
    intro e _
    simp only [List.map_cons, List.mem_cons, not_or, Bool.decide_and, ne_eq]
    rw [Bool.and_comm]

/-- In a map, a node's key is the key of a node accepted by `p` exactly when `p`
accepts the node itself. -/
theorem key_mem_filter (m : UnorderedMap V) (p : String × V → Bool) (e : String × V)
    (he : e ∈ m.nodes) : e.1 ∈ (m.nodes.filter p).map Prod.fst ↔ p e = true := by
  constructor
  · intro h
    obtain ⟨e', he', hk⟩ := List.mem_map.mp h
    obtain ⟨hm, hp⟩ := List.mem_filter.mp he'
    have : e' = e := List.inj_on_of_nodup_map m.unique hm he hk
    rw [← this]; exact hp
  · intro h
    exact List.mem_map_of_mem _ (List.mem_filter.mpr ⟨he, h⟩)

end UnorderedMap

/-! ## Multicast delegate: lemmas -/

theorem AddOp.run_eq {σ : Type} (h : Heap σ) (op : AddOp) (d : MultiDelegate) :
    op.run h d = (op.handle h d,
      { self := d.self
        dlgtId := (d.dlgtId + 1) % 2 ^ 32
        dlgtMap := d.dlgtMap.assign op.slot (op.handle h d).ToString op.variant }) := by
  cases op <;> rfl

theorem AddOp.handle_tdlgt {σ : Type} (h : Heap σ) (op : AddOp) (d : MultiDelegate) :
    (op.handle h d).tdlgt < 10 := by
  cases op <;> simp [AddOp.handle]

theorem AddOp.handle_idlgt {σ : Type} (h : Heap σ) (op : AddOp) (d : MultiDelegate) :
    (op.handle h d).idlgt = d.dlgtId := by
  cases op <;> rfl

theorem AddOp.handle_pdlgt {σ : Type} (h : Heap σ) (op : AddOp) (d : MultiDelegate) :
    (op.handle h d).pdlgt = d.self := by
  cases op <;> rfl

theorem MultiDelegate.RemoveIf_nodes (d : MultiDelegate) (p : String × IDelegate → Bool) :
    (d.RemoveIf p).2.dlgtMap.nodes = d.dlgtMap.nodes.filter (fun e => !p e) := by
  unfold MultiDelegate.RemoveIf
  by_cases h : (d.dlgtMap.nodes.filter p).length ≠ 0
  · rw [if_pos (decide_eq_true h)]
    show (List.foldl (fun acc it => acc.eraseIt it) d.dlgtMap
      (d.dlgtMap.nodes.filter p)).nodes = _
    rw [UnorderedMap.foldl_eraseIt_nodes]
    apply List.filter_congr
    intro e he
    have := UnorderedMap.key_mem_filter d.dlgtMap p e he
    by_cases hp : p e = true
    · simp [hp, this.mpr hp]
    · have hn : e.1 ∉ (d.dlgtMap.nodes.filter p).map Prod.fst := fun hc => hp (this.mp hc)
      simp only [Bool.not_eq_true] at hp
      simp only [hp, Bool.not_false, decide_eq_true_eq]
      exact hn
  · rw [if_neg (by simpa using h)]
    show d.dlgtMap.nodes = _
    have h0 : d.dlgtMap.nodes.filter p = [] := by
      rw [← List.length_eq_zero]; omega
    rw [List.filter_eq_nil_iff] at h0
    symm
    rw [List.filter_eq_self]
    intro e he
    simpa using h0 e he

theorem MultiDelegate.RemoveIf_result (d : MultiDelegate) (p : String × IDelegate → Bool) :
    (d.RemoveIf p).1 = true ↔ ∃ e ∈ d.dlgtMap.nodes, p e = true := by
  unfold MultiDelegate.RemoveIf
  by_cases h : (d.dlgtMap.nodes.filter p).length ≠ 0
  · rw [if_pos (decide_eq_true h)]
    simp only [decide_eq_true h, true_iff]
    obtain ⟨e, he⟩ := List.exists_mem_of_length_pos (Nat.pos_of_ne_zero h)
    exact ⟨e, (List.mem_filter.mp he).1, (List.mem_filter.mp he).2⟩
  · rw [if_neg (by simpa using h)]
    simp only [decide_eq_false h, Bool.false_eq_true, false_iff]
    rintro ⟨e, he, hp⟩
    exact h (List.length_pos_iff_ne_nil.mpr
      (List.ne_nil_of_mem (List.mem_filter.mpr ⟨he, hp⟩))).ne'

theorem MultiDelegate.RemoveIf_fields (d : MultiDelegate) (p : String × IDelegate → Bool) :
    (d.RemoveIf p).2.self = d.self ∧ (d.RemoveIf p).2.dlgtId = d.dlgtId := by
  unfold MultiDelegate.RemoveIf
  by_cases h : (d.dlgtMap.nodes.filter p).length ≠ 0
  · rw [if_pos (decide_eq_true h)]
    exact ⟨rfl, rfl⟩
  · rw [if_neg (by simpa using h)]
    exact ⟨rfl, rfl⟩

/-! ## Removal -/

/-- C5. `Remove(h)` returns true exactly when an entry whose key is the key of `h` is
registered; a second `Remove(h)` right after it returns false; and for the handle an add
has just returned, whose entry is registered, `Remove` returns true. -/
theorem MultiDelegate.Remove_true_iff {σ : Type} (hp : Heap σ) (d : MultiDelegate)
    (h : DelegateHandle) (op : AddOp) :
    ((d.Remove h).1 = true ↔ ∃ e ∈ d.dlgtMap.nodes, e.1 = h.ToString) ∧
    ((d.Remove h).2.Remove h).1 = false ∧
    ((op.run hp d).2.Remove (op.run hp d).1).1 = true ∧
    (((op.run hp d).2.Remove (op.run hp d).1).2.Remove (op.run hp d).1).1 = false := by
  have first : ∀ (d : MultiDelegate) (h : DelegateHandle),
      (d.Remove h).1 = true ↔ ∃ e ∈ d.dlgtMap.nodes, e.1 = h.ToString := by
    intro d h
    show decide ((d.dlgtMap.erase h.ToString).1 ≠ 0) = true ↔ _
    rw [decide_eq_true_iff]
    exact UnorderedMap.erase_count_ne_zero _ _
  have second : ∀ (d : MultiDelegate) (h : DelegateHandle),
      ((d.Remove h).2.Remove h).1 = false := by
    intro d h
    show decide (((d.dlgtMap.erase h.ToString).2.erase h.ToString).1 ≠ 0) = false
    rw [UnorderedMap.erase_erase_count]
    rfl
  refine ⟨first d h, second d h, ?_, second _ _⟩
  rw [first, AddOp.run_eq]
  exact ⟨_, UnorderedMap.key_mem_assign _ _ _ _, rfl⟩

/-- The nodes `Remove(fp)` leaves. -/
theorem MultiDelegate.RemoveFunction_nodes (d : MultiDelegate) (fp : Nat) :
    (d.RemoveFunction fp).2.dlgtMap.nodes
      = d.dlgtMap.nodes.filter (fun e => decide (e.2 ≠ IDelegate.FuncDelegate fp)) := by
  unfold MultiDelegate.RemoveFunction
  rw [MultiDelegate.RemoveIf_nodes]
  apply List.filter_congr
  intro e _
  cases h : e.2 <;> simp

theorem MultiDelegate.RemoveFunction_result (d : MultiDelegate) (fp : Nat) :
    (d.RemoveFunction fp).1 = true ↔ ∃ e ∈ d.dlgtMap.nodes, e.2 = IDelegate.FuncDelegate fp := by
  unfold MultiDelegate.RemoveFunction
  rw [MultiDelegate.RemoveIf_result]
  apply exists_congr
  intro e
  apply and_congr_right
  intro _
  cases h : e.2 <;> simp

/-- The body of `Remove(obj, m)` for class `cls` keeps, in their order, exactly the entries
that are not a raw-pointer-method variant of that class with stored target `obj` and stored
member function `m` (so the same method on another target and another method on the same
target stay); it returns true exactly when such an entry was registered, and the id
counter and the delegate's address are untouched. -/
theorem MultiDelegate.RemoveObject_spec (d : MultiDelegate) (cls obj m : Nat) :
    (d.RemoveObject cls obj m).2.dlgtMap.nodes
      = d.dlgtMap.nodes.filter (fun e => decide (e.2 ≠ IDelegate.ObjFuncDelegate cls obj m)) ∧
    ((d.RemoveObject cls obj m).1 = true
      ↔ ∃ e ∈ d.dlgtMap.nodes, e.2 = IDelegate.ObjFuncDelegate cls obj m) ∧
    (d.RemoveObject cls obj m).2.self = d.self ∧
    (d.RemoveObject cls obj m).2.dlgtId = d.dlgtId := by
  refine ⟨?_, ?_, (MultiDelegate.RemoveIf_fields d _).1, (MultiDelegate.RemoveIf_fields d _).2⟩
  · unfold MultiDelegate.RemoveObject
    rw [MultiDelegate.RemoveIf_nodes]
    apply List.filter_congr
    intro e _
    cases h : e.2 <;> simp
    rw [Bool.or_assoc, Bool.or_comm (!decide (_ = m))]
  · unfold MultiDelegate.RemoveObject
    rw [MultiDelegate.RemoveIf_result]
    apply exists_congr
    intro e
    apply and_congr_right
    intro _
    cases h : e.2 <;> simp
    tauto

/-- The body of `Remove(s, m)` for class `cls`, in heap `h`, keeps, in their order, exactly the entries that are not a lifetime-checked variant of that class with
member function `m` whose weak reference, locked at the time of the call, yields the
address held by `s` (a destroyed target yields the null address); it returns true exactly
when such an entry was registered, and the id counter and the delegate's address are
untouched. -/
theorem MultiDelegate.RemoveSafeObj_spec {σ : Type} (h : Heap σ) (d : MultiDelegate)
    (cls : Nat) (s : SharedPtr) (m : Nat) :
    (d.RemoveSafeObj h cls s m).2.dlgtMap.nodes
      = d.dlgtMap.nodes.filter (fun e => !e.2.locksTo h cls m s.get) ∧
    ((d.RemoveSafeObj h cls s m).1 = true
      ↔ ∃ e ∈ d.dlgtMap.nodes, e.2.locksTo h cls m s.get = true) ∧
    (d.RemoveSafeObj h cls s m).2.self = d.self ∧
    (d.RemoveSafeObj h cls s m).2.dlgtId = d.dlgtId := by
  have hpred : ∀ e : String × IDelegate,
      (match e.2 with
        | .ObjFuncSafeDelegate c o func =>
          decide (c = cls) && decide (func = m) && decide ((o.lock h).get = s.get)
        | _ => false) = e.2.locksTo h cls m s.get := by
    intro e
    cases e.2 <;> simp only [IDelegate.locksTo]
    rename_i c o func
    by_cases hx : o.expired h = true <;> simp [WeakPtr.lock, SharedPtr.get, hx]
  refine ⟨?_, ?_, (MultiDelegate.RemoveIf_fields d _).1, (MultiDelegate.RemoveIf_fields d _).2⟩
  · unfold MultiDelegate.RemoveSafeObj
    rw [MultiDelegate.RemoveIf_nodes]
    apply List.filter_congr
    intro e _
    rw [hpred]
  · unfold MultiDelegate.RemoveSafeObj
    rw [MultiDelegate.RemoveIf_result]
    apply exists_congr
    intro e
    rw [hpred]

/-- The two conditions of `ToString_eq_iff` are needed: handles with a category tag of two
digits, or with a null owner, can share a key. No add builds such a handle. -/
theorem DelegateHandle.ToString_collision :
    (DelegateHandle.mk 1 23 4096 0).ToString = (DelegateHandle.mk 12 3 4096 0).ToString ∧
    (DelegateHandle.mk 1 23 4096 0).tdlgt ≠ (DelegateHandle.mk 12 3 4096 0).tdlgt ∧
    (DelegateHandle.mk 0 10 5 0).ToString = (DelegateHandle.mk 0 1 0 80).ToString ∧
    (DelegateHandle.mk 0 10 5 0).idlgt ≠ (DelegateHandle.mk 0 1 0 80).idlgt := by
  decide

/-- C10. For every two binding handles, the keys `ToString` computes are equal exactly when
the four fields are pairwise equal. A binding handle is one an add has returned (the
constructor is private): its category tag is `0`, `1`, `2` or `4`, a single decimal digit
(`AddOp.handle_tdlgt`), and its owner is the address of the delegate
(`AddOp.handle_pdlgt`), which is not null. -/
theorem DelegateHandle.ToString_eq_iff (h1 h2 : DelegateHandle) (t1 : h1.tdlgt < 10)
    (t2 : h2.tdlgt < 10) (p1 : h1.pdlgt ≠ 0) (p2 : h2.pdlgt ≠ 0) :
    h1.ToString = h2.ToString ↔
      (h1.tdlgt = h2.tdlgt ∧ h1.idlgt = h2.idlgt ∧ h1.pdlgt = h2.pdlgt ∧ h1.bind = h2.bind) := by
  constructor
  · intro h
    have := ToString_inj_of h1 h2 t1 t2 p1 p2 h
    rw [this]
    exact ⟨rfl, rfl, rfl, rfl⟩
  · rintro ⟨a, b, c, e⟩
    cases h1; cases h2
    simp only at a b c e
    rw [a, b, c, e]

/-- Instance of C10 for the handles of two adds on the delegate at address `4096`. -/
theorem DelegateHandle.ToString_eq_iff_witness :
    ((4 : Nat) < 10 ∧ (0 : Nat) < 10 ∧ (4096 : Nat) ≠ 0 ∧ (4096 : Nat) ≠ 0) ∧
    ((DelegateHandle.mk 4 7 4096 0).ToString = (DelegateHandle.mk 0 7 4096 200).ToString ↔
      ((DelegateHandle.mk 4 7 4096 0).tdlgt = (DelegateHandle.mk 0 7 4096 200).tdlgt ∧
       (DelegateHandle.mk 4 7 4096 0).idlgt = (DelegateHandle.mk 0 7 4096 200).idlgt ∧
       (DelegateHandle.mk 4 7 4096 0).pdlgt = (DelegateHandle.mk 0 7 4096 200).pdlgt ∧
       (DelegateHandle.mk 4 7 4096 0).bind = (DelegateHandle.mk 0 7 4096 200).bind)) :=
  ⟨by decide, DelegateHandle.ToString_eq_iff (DelegateHandle.mk 4 7 4096 0)
    (DelegateHandle.mk 0 7 4096 200) (by decide) (by decide) (by decide) (by decide)⟩

/-! ## Broadcast -/

theorem IDelegate.invoke_eq {σ ε A R : Type} [Inhabited R] (P : Program σ ε A R)
    (d : IDelegate) (args : A) (w : World σ A) :
    d.invoke P args w =
      if d.dead w.heap then (Except.ok default, w.enter d args)
      else (w.enter d args).call P d.callee args := by
  cases d with
  | ObjFuncSafeDelegate cls obj func =>
    by_cases hx : obj.expired w.heap = true
    · simp [IDelegate.invoke, IDelegate.dead, hx]
    · simp [IDelegate.invoke, IDelegate.dead, hx, IDelegate.callee, WeakPtr.lock,
        SharedPtr.get]
  | _ => simp [IDelegate.invoke, IDelegate.dead, IDelegate.callee]

theorem IDelegate.invoke_invoked {σ ε A R : Type} [Inhabited R] (P : Program σ ε A R)
    (d : IDelegate) (args : A) (w : World σ A) :
    (d.invoke P args w).2.invoked = w.invoked ++ [(d, args)] := by
  rw [IDelegate.invoke_eq]
  split <;> rfl

/-- The entries `BroadCast` enters are a prefix of the nodes, in iteration order, each
entered once; all of them when no entry raises. -/
theorem MultiDelegate.broadCastLoop_invoked {σ ε A : Type} (P : Program σ ε A Unit)
    (args : A) (l : List (String × IDelegate)) (w : World σ A) :
    ∃ k, k ≤ l.length ∧
      (MultiDelegate.broadCastLoop P args l w).2.invoked
        = w.invoked ++ (l.take k).map (fun e => (e.2, args)) ∧
      ((MultiDelegate.broadCastLoop P args l w).1 = Except.ok () → k = l.length) := by
  induction l generalizing w with
  | nil => exact ⟨0, le_refl _, by simp [MultiDelegate.broadCastLoop], fun _ => rfl⟩
  | cons it rest ih =>
    have hinv := IDelegate.invoke_invoked P it.2 args w
    rcases hr : it.2.invoke P args w with ⟨r, w1⟩
    rw [hr] at hinv
    cases r with
    | error e =>
      refine ⟨1, by simp, ?_, ?_⟩
      · simp only [MultiDelegate.broadCastLoop, hr]
        simpa using hinv
      · intro hc
        simp [MultiDelegate.broadCastLoop, hr] at hc
    | ok u =>
      obtain ⟨k, hk, hk1, hk2⟩ := ih w1
      refine ⟨k + 1, by simpa using hk, ?_, ?_⟩
      · simp only [MultiDelegate.broadCastLoop, hr]
        rw [hk1]
        simp only at hinv
        rw [hinv]
        simp
      · intro hc
        simp only [MultiDelegate.broadCastLoop, hr] at hc
        simpa using hk2 hc

/-- When every entry is alive and its callable returns, `BroadCast` returns and runs the
callable of each node once, in iteration order. -/
theorem MultiDelegate.broadCastLoop_ok {σ ε A : Type} (P : Program σ ε A Unit) (args : A)
    (l : List (String × IDelegate)) (w : World σ A)
    (hok : ∀ e ∈ l, ∀ hp : Heap σ,
      e.2.dead hp = false ∧ (P e.2.callee args hp).1 = Except.ok ()) :
    (MultiDelegate.broadCastLoop P args l w).1 = Except.ok () ∧
    (MultiDelegate.broadCastLoop P args l w).2.calls
      = w.calls ++ l.map (fun e => (e.2.callee, args)) ∧
    (MultiDelegate.broadCastLoop P args l w).2.heap
      = l.foldl (fun hp e => (P e.2.callee args hp).2) w.heap := by
  induction l generalizing w with
  | nil => simp [MultiDelegate.broadCastLoop]
  | cons it rest ih =>
    obtain ⟨hd, hr⟩ := hok it (List.mem_cons_self _ _) w.heap
    have hinv : it.2.invoke P args w = (Except.ok (), ((w.enter it.2 args).call P it.2.callee args).2) := by
      rw [IDelegate.invoke_eq, hd]
      simp only [Bool.false_eq_true, if_false]
      apply Prod.ext
      · exact hr
      · rfl
    obtain ⟨h1, h2, h3⟩ := ih ((w.enter it.2 args).call P it.2.callee args).2
      (fun e he => hok e (List.mem_cons_of_mem _ he))
    simp only [MultiDelegate.broadCastLoop, hinv]
    refine ⟨h1, ?_, ?_⟩
    · rw [h2]; simp [World.call, World.enter]
    · rw [h3]; simp [World.call, World.enter]

theorem AddOp.run_Remove_fresh {σ : Type} (h : Heap σ) (op : AddOp) (d : MultiDelegate)
    (hfresh : (op.handle h d).ToString ∉ d.dlgtMap.nodes.map Prod.fst) :
    (op.run h d).2.Remove (op.run h d).1
      = (true, { self := d.self, dlgtId := (d.dlgtId + 1) % 2 ^ 32, dlgtMap := d.dlgtMap }) := by
  rw [AddOp.run_eq]
  unfold MultiDelegate.Remove
  simp only
  rw [UnorderedMap.erase_assign_fresh _ _ _ _ hfresh]
  congr 1
  rw [decide_eq_true_iff, UnorderedMap.erase_count_ne_zero]
  exact ⟨_, UnorderedMap.key_mem_assign _ _ _ _, rfl⟩

/-- Adding a free function and removing it through the handle `n` times only advances the
id counter by `n`, modulo `2 ^ 32`. -/
theorem MultiDelegate.churn_eq (func n : Nat) (d : MultiDelegate) (hid : d.dlgtId < 2 ^ 32)
    (hfresh : ∀ id, (DelegateHandle.mk 0 id d.self func).ToString
      ∉ d.dlgtMap.nodes.map Prod.fst) :
    MultiDelegate.churn func n d
      = { self := d.self, dlgtId := (d.dlgtId + n) % 2 ^ 32, dlgtMap := d.dlgtMap } := by
  induction n generalizing d with
  | zero =>
    simp only [MultiDelegate.churn, Nat.add_zero]
    rw [Nat.mod_eq_of_lt hid]
  | succ n ih =>
    have hstep := AddOp.run_Remove_fresh (σ := Unit) ⟨(), fun _ => false⟩
      (AddOp.AddFunction 0 func) d (hfresh d.dlgtId)
    have hstep2 : (d.AddFunction 0 func).2.Remove (d.AddFunction 0 func).1
        = (true, { self := d.self, dlgtId := (d.dlgtId + 1) % 2 ^ 32, dlgtMap := d.dlgtMap }) :=
      hstep
    simp only [MultiDelegate.churn]
    rw [hstep2]
    have hi := ih { self := d.self, dlgtId := (d.dlgtId + 1) % 2 ^ 32, dlgtMap := d.dlgtMap }
      (Nat.mod_lt _ (by norm_num : 0 < 2 ^ 32)) hfresh
    simp only at hi ⊢
    rw [hi]
    congr 1
    omega

theorem AddOp.handle_eta {σ : Type} (h : Heap σ) (op : AddOp) (d : MultiDelegate) :
    op.handle h d = ⟨(op.handle h d).tdlgt, d.dlgtId, d.self, (op.handle h d).bind⟩ := by
  cases op <;> rfl

theorem MultiDelegate.addAll_snoc {σ : Type} (h : Heap σ) (ops : List AddOp) (op : AddOp)
    (d : MultiDelegate) :
    MultiDelegate.addAll h (ops ++ [op]) d = (op.run h (MultiDelegate.addAll h ops d)).2 := by
  simp [MultiDelegate.addAll, List.foldl_append]

/-- After at most `2 ^ 32` adds on a new delegate at a non-null address: the counter has
advanced by the number of adds, every key is the key of a handle issued with one of the
ids handed out so far, and the registered variants are those added, each once. -/
theorem MultiDelegate.addAll_inv {σ : Type} (h : Heap σ) (self init : Nat) (hself : self ≠ 0)
    (ops : List AddOp) (hN : ops.length ≤ 2 ^ 32) :
    (MultiDelegate.addAll h ops (MultiDelegate.new self init)).self = self ∧
    (MultiDelegate.addAll h ops (MultiDelegate.new self init)).dlgtId
      = (init + ops.length) % 2 ^ 32 ∧
    (∀ e ∈ (MultiDelegate.addAll h ops (MultiDelegate.new self init)).dlgtMap.nodes,
      ∃ t i b, t < 10 ∧ i < ops.length ∧
        e.1 = (DelegateHandle.mk t ((init + i) % 2 ^ 32) self b).ToString) ∧
    ((MultiDelegate.addAll h ops (MultiDelegate.new self init)).dlgtMap.nodes.map Prod.snd).Perm
      (ops.map AddOp.variant) := by
  induction ops using List.reverseRecOn with
  | nil =>
    refine ⟨rfl, ?_, ?_, ?_⟩
    · simp [MultiDelegate.addAll, MultiDelegate.new]
    · intro e he
      simp [MultiDelegate.addAll, MultiDelegate.new, UnorderedMap.empty] at he
    · simp [MultiDelegate.addAll, MultiDelegate.new, UnorderedMap.empty]
  | append_singleton ops op ih =>
    have hlen : (ops ++ [op]).length = ops.length + 1 := by simp
    rw [hlen] at hN
    obtain ⟨i1, i2, i3, i4⟩ := ih (by omega)
    rw [MultiDelegate.addAll_snoc, AddOp.run_eq]
    generalize MultiDelegate.addAll h ops (MultiDelegate.new self init) = D at i1 i2 i3 i4
    have heta := AddOp.handle_eta h op D
    rw [i1, i2] at heta
    have hfresh : (op.handle h D).ToString ∉ D.dlgtMap.nodes.map Prod.fst := by
      intro hmem
      obtain ⟨e, he, hk⟩ := List.mem_map.mp hmem
      obtain ⟨t, i, b, ht, hi, hkey⟩ := i3 e he
      rw [hkey] at hk
      have hinj := ToString_inj_of _ _ ht (AddOp.handle_tdlgt h op D) hself
        (by rw [AddOp.handle_pdlgt, i1]; exact hself) hk
      have hid := congrArg DelegateHandle.idlgt hinj
      rw [AddOp.handle_idlgt, i2] at hid
      simp only at hid
      omega
    simp only
    rw [UnorderedMap.assign_nodes_fresh _ _ _ _ hfresh]
    refine ⟨i1, ?_, ?_, ?_⟩
    · rw [i2, hlen]; omega
    · intro e he
      rcases (mem_insertAt _ _ _ _).mp he with he | he
      · refine ⟨(op.handle h D).tdlgt, ops.length, (op.handle h D).bind,
          AddOp.handle_tdlgt h op D, by omega, ?_⟩
        rw [he, ← heta]
      · obtain ⟨t, i, b, ht, hi, hkey⟩ := i3 e he
        exact ⟨t, i, b, ht, by omega, hkey⟩
    · have hp := (insertAt_perm ((op.handle h D).ToString, op.variant) op.slot
        D.dlgtMap.nodes).map Prod.snd
      refine hp.trans ?_
      rw [List.map_cons, List.map_append, List.map_singleton]
      exact (i4.cons _).trans (List.perm_append_singleton _ _).symm

theorem AddOp.plain_dead {σ : Type} (op : AddOp) (hpl : op.plain = true) (hp : Heap σ) :
    op.variant.dead hp = false := by
  cases op <;> first | rfl | simp [AddOp.plain] at hpl

/-- C4. For `N < 2 ^ 32` adds (`AddFunction`, `AddObject`, `AddAnyFunc`, repetitions
allowed) on a newly constructed multicast delegate, whatever value its id counter starts
from and wherever the table places the nodes: the collection holds exactly `N` entries,
and `BroadCast(args)`, the callables returning normally, returns and runs user code exactly
as registered: the calls it makes are, up to order, one call with `args` per add, so a
callable added `k` times is called `k` times, and the entries it enters are, up to order,
the registered variants, one per add. -/
theorem MultiDelegate.BroadCast_after_adds {σ ε A : Type} (P : Program σ ε A Unit)
    (h : Heap σ) (self init : Nat) (ops : List AddOp) (args : A) (w : World σ A)
    (hself : self ≠ 0) (hN : ops.length < 2 ^ 32)
    (hplain : ∀ op ∈ ops, op.plain = true)
    (hok : ∀ op ∈ ops, ∀ hp : Heap σ, (P op.callee args hp).1 = Except.ok ()) :
    (MultiDelegate.addAll h ops (MultiDelegate.new self init)).dlgtMap.nodes.length
      = ops.length ∧
    (MultiDelegate.BroadCast P (MultiDelegate.addAll h ops (MultiDelegate.new self init))
      args w).1 = Except.ok () ∧
    ∃ cs : List (Callee × A),
      (MultiDelegate.BroadCast P (MultiDelegate.addAll h ops (MultiDelegate.new self init))
        args w).2.calls = w.calls ++ cs ∧
      cs.Perm (ops.map (fun op => (op.callee, args))) ∧
      (∀ c : Callee, cs.countP (fun x => decide (x.1 = c))
        = ops.countP (fun op => decide (op.callee = c))) ∧
      ∃ vs : List (IDelegate × A),
        (MultiDelegate.BroadCast P (MultiDelegate.addAll h ops (MultiDelegate.new self init))
          args w).2.invoked = w.invoked ++ vs ∧
        vs.Perm (ops.map (fun op => (op.variant, args))) := by
  obtain ⟨_, _, _, i4⟩ := MultiDelegate.addAll_inv h self init hself ops (by omega)
  generalize MultiDelegate.addAll h ops (MultiDelegate.new self init) = D at i4
  have hall : ∀ e ∈ D.dlgtMap.nodes, ∀ hp : Heap σ,
      e.2.dead hp = false ∧ (P e.2.callee args hp).1 = Except.ok () := by
    intro e he hp
    have hm : e.2 ∈ ops.map AddOp.variant :=
      i4.mem_iff.mp (List.mem_map_of_mem Prod.snd he)
    obtain ⟨op, hop, hv⟩ := List.mem_map.mp hm
    rw [← hv]
    exact ⟨AddOp.plain_dead op (hplain op hop) hp, hok op hop hp⟩
  obtain ⟨b1, b2, _⟩ := MultiDelegate.broadCastLoop_ok P args D.dlgtMap.nodes w hall
  have hperm : (D.dlgtMap.nodes.map (fun e => (e.2.callee, args))).Perm
      (ops.map (fun op => (op.callee, args))) := by
    have := i4.map (fun v : IDelegate => (v.callee, args))
    simpa [List.map_map, Function.comp, AddOp.callee] using this
  obtain ⟨k, _, k1, k2⟩ := MultiDelegate.broadCastLoop_invoked P args D.dlgtMap.nodes w
  have hk : k = D.dlgtMap.nodes.length := k2 b1
  rw [hk, List.take_length] at k1
  have hpermv : (D.dlgtMap.nodes.map (fun e => (e.2, args))).Perm
      (ops.map (fun op => (op.variant, args))) := by
    have := i4.map (fun v : IDelegate => (v, args))
    simpa [List.map_map, Function.comp] using this
  refine ⟨?_, b1, _, b2, hperm, ?_, _, k1, hpermv⟩
  · have := i4.length_eq
    simpa using this
  · intro c
    rw [hperm.countP_eq, List.countP_map]
    rfl

/-- Instance of C4: the same free function added twice and a callable object. -/
theorem MultiDelegate.BroadCast_after_adds_witness :
    ((4096 : Nat) ≠ 0 ∧ [AddOp.AddFunction 0 100, AddOp.AddFunction 0 100,
        AddOp.AddAnyFunc 5 3].length < 2 ^ 32) ∧
    (MultiDelegate.addAll world10.heap [AddOp.AddFunction 0 100, AddOp.AddFunction 0 100,
        AddOp.AddAnyFunc 5 3] (MultiDelegate.new 4096 4294967295)).dlgtMap.nodes.length
      = [AddOp.AddFunction 0 100, AddOp.AddFunction 0 100, AddOp.AddAnyFunc 5 3].length :=
  ⟨by decide, (MultiDelegate.BroadCast_after_adds counterProgramVoid world10.heap 4096
    4294967295 [AddOp.AddFunction 0 100, AddOp.AddFunction 0 100, AddOp.AddAnyFunc 5 3]
    0 world10 (by decide) (by decide) (by decide)
    (by intro op hop hp
        simp only [List.mem_cons, List.mem_singleton, List.not_mem_nil, or_false] at hop
        rcases hop with rfl | rfl | rfl <;> rfl)).1⟩

/-! ## Removal by function pointer -/

theorem MultiDelegate.counter_foldl {ε A : Type} (P : Program Nat ε A Unit) (args : A)
    (l : List (String × IDelegate)) (h0 : Heap Nat)
    (hinc : ∀ e ∈ l, ∀ hp : Heap Nat,
      P e.2.callee args hp = (Except.ok (), { hp with mem := hp.mem + 1 })) :
    (l.foldl (fun hp e => (P e.2.callee args hp).2) h0).mem = h0.mem + l.length := by
  induction l generalizing h0 with
  | nil => simp
  | cons it rest ih =>
    rw [List.foldl_cons, ih _ (fun e he => hinc e (List.mem_cons_of_mem _ he)),
      hinc it (List.mem_cons_self _ _) h0]
    simp only [List.length_cons]
    omega

/-- When every registered entry is a free function that adds one to the counter,
`BroadCast` raises the counter by the number of entries. -/
theorem MultiDelegate.BroadCast_counter {ε A : Type} (P : Program Nat ε A Unit) (args : A)
    (d : MultiDelegate) (w : World Nat A) (fs : List Nat)
    (hfs : ∀ e ∈ d.dlgtMap.nodes, ∃ f ∈ fs, e.2 = IDelegate.FuncDelegate f)
    (hinc : ∀ f ∈ fs, ∀ (a : A) (hp : Heap Nat),
      P (.fn f) a hp = (Except.ok (), { hp with mem := hp.mem + 1 })) :
    (MultiDelegate.BroadCast P d args w).2.heap.mem = w.heap.mem + d.dlgtMap.nodes.length := by
  have hcal : ∀ e ∈ d.dlgtMap.nodes, ∀ hp : Heap Nat,
      P e.2.callee args hp = (Except.ok (), { hp with mem := hp.mem + 1 }) := by
    intro e he hp
    obtain ⟨f, hf, hv⟩ := hfs e he
    rw [hv]
    exact hinc f hf args hp
  have hall : ∀ e ∈ d.dlgtMap.nodes, ∀ hp : Heap Nat,
      e.2.dead hp = false ∧ (P e.2.callee args hp).1 = Except.ok () := by
    intro e he hp
    obtain ⟨f, _, hv⟩ := hfs e he
    refine ⟨by rw [hv]; rfl, ?_⟩
    rw [hcal e he hp]
  obtain ⟨_, _, b3⟩ := MultiDelegate.broadCastLoop_ok P args d.dlgtMap.nodes w hall
  unfold MultiDelegate.BroadCast
  rw [b3]
  exact MultiDelegate.counter_foldl P args _ _ hcal

theorem MultiDelegate.RemoveIf_none (d : MultiDelegate) (p : String × IDelegate → Bool)
    (hnone : ∀ e ∈ d.dlgtMap.nodes, p e = false) : d.RemoveIf p = (false, d) := by
  have h0 : d.dlgtMap.nodes.filter p = [] := by
    rw [List.filter_eq_nil_iff]
    intro e he
    simp [hnone e he]
  unfold MultiDelegate.RemoveIf
  simp [h0]

/-- C7. `Remove(fp)` keeps, in their order, exactly the entries that are not a
plain-function variant bound to `fp` (every registration of `fp` goes, duplicates
included), returns true exactly when such an entry was registered, leaves the id counter
and the delegate's address untouched, and with a pointer that is not registered returns
false and changes nothing. In particular, on a new delegate to which two different
functions `f` and `g` that each add one to a counter have been added, `BroadCast` raises
the counter by exactly 2, `Remove(f)` returns true, and a further `BroadCast` raises the
counter by exactly 1. -/
theorem MultiDelegate.RemoveFunction_spec {ε A : Type} (d : MultiDelegate) (fp : Nat)
    (P : Program Nat ε A Unit) (self init s1 s2 f g : Nat) (args : A) (w w2 : World Nat A) :
    (d.RemoveFunction fp).2.dlgtMap.nodes
      = d.dlgtMap.nodes.filter (fun e => decide (e.2 ≠ IDelegate.FuncDelegate fp)) ∧
    ((d.RemoveFunction fp).1 = true
      ↔ ∃ e ∈ d.dlgtMap.nodes, e.2 = IDelegate.FuncDelegate fp) ∧
    (d.RemoveFunction fp).2.self = d.self ∧
    (d.RemoveFunction fp).2.dlgtId = d.dlgtId ∧
    ((∀ e ∈ d.dlgtMap.nodes, e.2 ≠ IDelegate.FuncDelegate fp) →
      d.RemoveFunction fp = (false, d)) ∧
    (self ≠ 0 → f ≠ g →
      (∀ (a : A) (hp : Heap Nat),
        P (.fn f) a hp = (Except.ok (), { hp with mem := hp.mem + 1 })) →
      (∀ (a : A) (hp : Heap Nat),
        P (.fn g) a hp = (Except.ok (), { hp with mem := hp.mem + 1 })) →
      (MultiDelegate.BroadCast P
        (((MultiDelegate.new self init).AddFunction s1 f).2.AddFunction s2 g).2
        args w).2.heap.mem = w.heap.mem + 2 ∧
      ((((MultiDelegate.new self init).AddFunction s1 f).2.AddFunction s2 g).2.RemoveFunction
        f).1 = true ∧
      (MultiDelegate.BroadCast P
        ((((MultiDelegate.new self init).AddFunction s1 f).2.AddFunction s2 g).2.RemoveFunction
          f).2 args w2).2.heap.mem = w2.heap.mem + 1) := by
  refine ⟨MultiDelegate.RemoveFunction_nodes d fp, MultiDelegate.RemoveFunction_result d fp,
    (MultiDelegate.RemoveIf_fields d _).1, (MultiDelegate.RemoveIf_fields d _).2, ?_, ?_⟩
  · intro hnone
    unfold MultiDelegate.RemoveFunction
    apply MultiDelegate.RemoveIf_none
    intro e he
    have := hnone e he
    cases hv : e.2 <;> simp
    rename_i func
    rintro rfl
    exact this hv
  · intro hself hfg hf hg
    have hd2 : (((MultiDelegate.new self init).AddFunction s1 f).2.AddFunction s2 g).2
        = MultiDelegate.addAll w.heap [AddOp.AddFunction s1 f, AddOp.AddFunction s2 g]
            (MultiDelegate.new self init) := rfl
    obtain ⟨_, _, _, i4⟩ := MultiDelegate.addAll_inv w.heap self init hself
      [AddOp.AddFunction s1 f, AddOp.AddFunction s2 g] (by norm_num)
    rw [← hd2] at i4
    generalize (((MultiDelegate.new self init).AddFunction s1 f).2.AddFunction s2 g).2 = D at i4
    simp only [List.map_cons, List.map_nil, AddOp.variant] at i4
    have hmem : ∀ e ∈ D.dlgtMap.nodes, ∃ x ∈ [f, g], e.2 = IDelegate.FuncDelegate x := by
      intro e he
      have := i4.mem_iff.mp (List.mem_map_of_mem Prod.snd he)
      simp only [List.mem_cons, List.mem_singleton, List.not_mem_nil, or_false] at this
      rcases this with hv | hv
      · exact ⟨f, by simp, hv⟩
      · exact ⟨g, by simp, hv⟩
    have hinc : ∀ x ∈ [f, g], ∀ (a : A) (hp : Heap Nat),
        P (.fn x) a hp = (Except.ok (), { hp with mem := hp.mem + 1 }) := by
      intro x hx
      simp only [List.mem_cons, List.mem_singleton, List.not_mem_nil, or_false] at hx
      rcases hx with rfl | rfl
      · exact hf
      · exact hg
    have hlen : D.dlgtMap.nodes.length = 2 := by
      have := i4.length_eq
      simpa using this
    have hfilt : ((D.RemoveFunction f).2.dlgtMap.nodes.map Prod.snd).Perm
        [IDelegate.FuncDelegate g] := by
      rw [MultiDelegate.RemoveFunction_nodes]
      have hmf : (D.dlgtMap.nodes.filter
            (fun e => decide (e.2 ≠ IDelegate.FuncDelegate f))).map Prod.snd
          = (D.dlgtMap.nodes.map Prod.snd).filter
              (fun v => decide (v ≠ IDelegate.FuncDelegate f)) := by
        rw [List.filter_map]; rfl
      rw [hmf]
      have := i4.filter (fun v => decide (v ≠ IDelegate.FuncDelegate f))
      have hgf : g ≠ f := fun e => hfg e.symm
      simpa [List.filter, hgf] using this
    refine ⟨?_, ?_, ?_⟩
    · rw [MultiDelegate.BroadCast_counter P args D w [f, g] hmem hinc, hlen]
    · rw [MultiDelegate.RemoveFunction_result]
      have : IDelegate.FuncDelegate f ∈ D.dlgtMap.nodes.map Prod.snd :=
        i4.mem_iff.mpr (by simp)
      obtain ⟨e, he, hv⟩ := List.mem_map.mp this
      exact ⟨e, he, hv⟩
    · have hmem2 : ∀ e ∈ (D.RemoveFunction f).2.dlgtMap.nodes,
          ∃ x ∈ [f, g], e.2 = IDelegate.FuncDelegate x := by
        intro e he
        rw [MultiDelegate.RemoveFunction_nodes] at he
        exact hmem e (List.mem_filter.mp he).1
      rw [MultiDelegate.BroadCast_counter P args _ w2 [f, g] hmem2 hinc]
      have := hfilt.length_eq
      simp only [List.length_map, List.length_singleton] at this
      rw [this]

/-! ## Concrete instances -/

/-- Instance of C3: a target that has been destroyed, and one that is alive. -/
theorem IDelegate.invoke_ObjFuncSafeDelegate_witness :
    (WeakPtr.expired world10.heap ⟨some 2, 64⟩ = true ∧
      ((IDelegate.ObjFuncSafeDelegate 1 ⟨some 2, 64⟩ 5).invoke counterProgram 3 world10).1
        = Except.ok default ∧
      ((IDelegate.ObjFuncSafeDelegate 1 ⟨some 2, 64⟩ 5).invoke counterProgram 3 world10).2.calls
        = world10.calls) ∧
    (WeakPtr.expired world10.heap ⟨some 1, 64⟩ = false ∧
      ((IDelegate.ObjFuncSafeDelegate 1 ⟨some 1, 64⟩ 5).invoke counterProgram 3 world10).1
        = (counterProgram (.mfn 1 5 64) 3 world10.heap).1 ∧
      ((IDelegate.ObjFuncSafeDelegate 1 ⟨some 1, 64⟩ 5).invoke counterProgram 3 world10).2.calls
        = world10.calls ++ [(.mfn 1 5 64, 3)]) :=
  ⟨⟨by decide,
      ((IDelegate.invoke_ObjFuncSafeDelegate counterProgram 1 ⟨some 2, 64⟩ 5 3 world10).1
        (by decide)).1,
      ((IDelegate.invoke_ObjFuncSafeDelegate counterProgram 1 ⟨some 2, 64⟩ 5 3 world10).1
        (by decide)).2.2⟩,
    ⟨by decide,
      ((IDelegate.invoke_ObjFuncSafeDelegate counterProgram 1 ⟨some 1, 64⟩ 5 3 world10).2
        (by decide)).1,
      ((IDelegate.invoke_ObjFuncSafeDelegate counterProgram 1 ⟨some 1, 64⟩ 5 3 world10).2
        (by decide)).2.2⟩⟩

/-- Instance of C7: the functions at `100` and `200` on the delegate at `4096`, and a
pointer that is not registered on an empty delegate. -/
theorem MultiDelegate.RemoveFunction_spec_witness :
    ((4096 : Nat) ≠ 0 ∧ (100 : Nat) ≠ 200) ∧
    (MultiDelegate.new 4096 0).RemoveFunction 5 = (false, MultiDelegate.new 4096 0) ∧
    (MultiDelegate.BroadCast counterProgramVoid
      (((MultiDelegate.new 4096 0).AddFunction 0 100).2.AddFunction 0 200).2
      0 world10).2.heap.mem = world10.heap.mem + 2 ∧
    ((((MultiDelegate.new 4096 0).AddFunction 0 100).2.AddFunction 0 200).2.RemoveFunction
      100).1 = true ∧
    (MultiDelegate.BroadCast counterProgramVoid
      ((((MultiDelegate.new 4096 0).AddFunction 0 100).2.AddFunction 0 200).2.RemoveFunction
        100).2 0 world10).2.heap.mem = world10.heap.mem + 1 :=
  ⟨by decide,
    (MultiDelegate.RemoveFunction_spec (MultiDelegate.new 4096 0) 5 counterProgramVoid
      4096 0 0 0 100 200 0 world10 world10).2.2.2.2.1 (by decide),
    (MultiDelegate.RemoveFunction_spec (MultiDelegate.new 4096 0) 5 counterProgramVoid
      4096 0 0 0 100 200 0 world10 world10).2.2.2.2.2 (by decide) (by decide)
      (fun _ _ => rfl) (fun _ _ => rfl)⟩

/-! ## Clear -/

theorem MultiDelegate.Remove_absent (d : MultiDelegate) (h : DelegateHandle)
    (habs : h.ToString ∉ d.dlgtMap.nodes.map Prod.fst) : d.Remove h = (false, d) := by
  have hall : ∀ e ∈ d.dlgtMap.nodes, e.1 ≠ h.ToString := by
    intro e he hk
    exact habs (by rw [← hk]; exact List.mem_map_of_mem _ he)
  have hcount : (d.dlgtMap.erase h.ToString).1 = 0 := by
    show (d.dlgtMap.nodes.filter (fun e => decide (e.1 = h.ToString))).length = 0
    rw [List.length_eq_zero, List.filter_eq_nil_iff]
    intro e he
    simpa using hall e he
  have hmap : (d.dlgtMap.erase h.ToString).2 = d.dlgtMap := by
    apply UnorderedMap.ext_nodes
    show d.dlgtMap.nodes.filter (fun e => decide (e.1 ≠ h.ToString)) = d.dlgtMap.nodes
    rw [List.filter_eq_self]
    intro e he
    simpa using hall e he
  unfold MultiDelegate.Remove
  simp only [hcount, hmap]
  rfl

/-- C14. After `Clear` the collection has no entries, `BroadCast(args)` returns without
entering an entry or running user code and leaves the world as it was, and every `Remove`,
by handle, by function pointer, by raw target and method, by shared target and method and
by weak target and method, returns false and changes nothing. -/
theorem MultiDelegate.Clear_spec {σ ε A : Type} (P : Program σ ε A Unit) (hp : Heap σ)
    (d : MultiDelegate) (args : A) (w : World σ A) (h : DelegateHandle)
    (fp cls obj m : Nat) (s : SharedPtr) (wk : WeakPtr) :
    d.Clear.dlgtMap.nodes = [] ∧
    MultiDelegate.BroadCast P d.Clear args w = (Except.ok (), w) ∧
    d.Clear.Remove h = (false, d.Clear) ∧
    d.Clear.RemoveFunction fp = (false, d.Clear) ∧
    d.Clear.RemoveObject cls obj m = (false, d.Clear) ∧
    d.Clear.RemoveSafeObj hp cls s m = (false, d.Clear) ∧
    d.Clear.RemoveSafeObjWeak hp cls wk m = (false, d.Clear) := by
  have hnone : ∀ p : String × IDelegate → Bool, d.Clear.RemoveIf p = (false, d.Clear) := by
    intro p
    apply MultiDelegate.RemoveIf_none
    intro e he
    cases he
  refine ⟨rfl, rfl, ?_, hnone _, hnone _, hnone _, ?_⟩
  · apply MultiDelegate.Remove_absent
    intro hmem
    cases hmem
  · unfold MultiDelegate.RemoveSafeObjWeak
    split
    · exact hnone _
    · rfl

/-! ## Removal by identity: what stays -/

theorem MultiDelegate.RemoveIf_frame (d : MultiDelegate) (p q : String × IDelegate → Bool)
    (hpq : ∀ e ∈ d.dlgtMap.nodes, p e = true → q e = false) :
    (d.RemoveIf p).2.dlgtMap.nodes.filter q = d.dlgtMap.nodes.filter q := by
  rw [MultiDelegate.RemoveIf_nodes, List.filter_filter]
  apply List.filter_congr
  intro e he
  by_cases hp : p e = true
  · simp [hpq e he hp]
  · simp only [Bool.not_eq_true] at hp
    simp [hp]

/-- C16, as the code has it. Every identity-based `Remove` leaves, registered, unchanged
and in their order, the entries of every category other than the one requested, and with
them every arbitrary-callable entry: by function pointer the entries that are not plain
functions, by raw target and method those that are not methods on a raw pointer, by shared
or weak target and method those that are not lifetime-checked methods. Among the
operations that are not an add, an arbitrary-callable entry disappears only through
`Remove` with a handle of its key or through `Clear`. -/
theorem MultiDelegate.Remove_identity_frame {σ : Type} (hp : Heap σ) (d : MultiDelegate)
    (fp cls obj m : Nat) (s : SharedPtr) (wk : WeakPtr) :
    ((d.RemoveFunction fp).2.dlgtMap.nodes.filter (fun e => decide (e.2.category ≠ 0))
      = d.dlgtMap.nodes.filter (fun e => decide (e.2.category ≠ 0)) ∧
     (d.RemoveObject cls obj m).2.dlgtMap.nodes.filter (fun e => decide (e.2.category ≠ 1))
      = d.dlgtMap.nodes.filter (fun e => decide (e.2.category ≠ 1)) ∧
     (d.RemoveSafeObj hp cls s m).2.dlgtMap.nodes.filter (fun e => decide (e.2.category ≠ 2))
      = d.dlgtMap.nodes.filter (fun e => decide (e.2.category ≠ 2)) ∧
     (d.RemoveSafeObjWeak hp cls wk m).2.dlgtMap.nodes.filter
        (fun e => decide (e.2.category ≠ 2))
      = d.dlgtMap.nodes.filter (fun e => decide (e.2.category ≠ 2))) ∧
    ((d.RemoveFunction fp).2.dlgtMap.nodes.filter (fun e => decide (e.2.category = 4))
      = d.dlgtMap.nodes.filter (fun e => decide (e.2.category = 4)) ∧
     (d.RemoveObject cls obj m).2.dlgtMap.nodes.filter (fun e => decide (e.2.category = 4))
      = d.dlgtMap.nodes.filter (fun e => decide (e.2.category = 4)) ∧
     (d.RemoveSafeObj hp cls s m).2.dlgtMap.nodes.filter (fun e => decide (e.2.category = 4))
      = d.dlgtMap.nodes.filter (fun e => decide (e.2.category = 4)) ∧
     (d.RemoveSafeObjWeak hp cls wk m).2.dlgtMap.nodes.filter
        (fun e => decide (e.2.category = 4))
      = d.dlgtMap.nodes.filter (fun e => decide (e.2.category = 4))) ∧
    (∀ (o : Op) (e : String × IDelegate), o.isAdd = false → e ∈ d.dlgtMap.nodes →
      e.2.category = 4 → e ∉ (o.run hp d).dlgtMap.nodes →
      (∃ h : DelegateHandle, o = Op.remove h ∧ h.ToString = e.1) ∨ o = Op.clear) := by
  have hF : ∀ (q : String × IDelegate → Bool),
      (∀ e : String × IDelegate, e.2.category = 0 → q e = false) →
      (d.RemoveFunction fp).2.dlgtMap.nodes.filter q = d.dlgtMap.nodes.filter q := by
    intro q hq
    unfold MultiDelegate.RemoveFunction
    apply MultiDelegate.RemoveIf_frame
    intro e _ hpe
    apply hq
    cases hv : e.2 <;> simp [hv] at hpe
    rfl
  have hO : ∀ (q : String × IDelegate → Bool),
      (∀ e : String × IDelegate, e.2.category = 1 → q e = false) →
      (d.RemoveObject cls obj m).2.dlgtMap.nodes.filter q = d.dlgtMap.nodes.filter q := by
    intro q hq
    unfold MultiDelegate.RemoveObject
    apply MultiDelegate.RemoveIf_frame
    intro e _ hpe
    apply hq
    cases hv : e.2 <;> simp [hv] at hpe
    rfl
  have hS : ∀ (s : SharedPtr) (q : String × IDelegate → Bool),
      (∀ e : String × IDelegate, e.2.category = 2 → q e = false) →
      (d.RemoveSafeObj hp cls s m).2.dlgtMap.nodes.filter q = d.dlgtMap.nodes.filter q := by
    intro s q hq
    unfold MultiDelegate.RemoveSafeObj
    apply MultiDelegate.RemoveIf_frame
    intro e _ hpe
    apply hq
    cases hv : e.2 <;> simp [hv] at hpe
    rfl
  have hW : ∀ (q : String × IDelegate → Bool),
      (∀ e : String × IDelegate, e.2.category = 2 → q e = false) →
      (d.RemoveSafeObjWeak hp cls wk m).2.dlgtMap.nodes.filter q
        = d.dlgtMap.nodes.filter q := by
    intro q hq
    unfold MultiDelegate.RemoveSafeObjWeak
    split
    · exact hS _ q hq
    · rfl
  refine ⟨⟨hF _ ?_, hO _ ?_, hS _ _ ?_, hW _ ?_⟩,
    ⟨hF _ ?_, hO _ ?_, hS _ _ ?_, hW _ ?_⟩, ?_⟩
  on_goal 9 =>
    intro o e hadd he hcat hgone
    have hkeep : ∀ l : List (String × IDelegate),
        l.filter (fun x => decide (x.2.category = 4))
          = d.dlgtMap.nodes.filter (fun x => decide (x.2.category = 4)) → e ∈ l := by
      intro l hl
      have hm : e ∈ d.dlgtMap.nodes.filter (fun x => decide (x.2.category = 4)) :=
        List.mem_filter.mpr ⟨he, by simpa using hcat⟩
      rw [← hl] at hm
      exact (List.mem_filter.mp hm).1
    cases o with
    | add op => simp [Op.isAdd] at hadd
    | remove h =>
      left
      refine ⟨h, rfl, ?_⟩
      by_contra hne
      apply hgone
      show e ∈ d.dlgtMap.nodes.filter (fun x => decide (x.1 ≠ h.ToString))
      exact List.mem_filter.mpr ⟨he, by simpa using fun hk => hne hk.symm⟩
    | removeFunction objFun =>
      exfalso
      apply hgone
      show e ∈ (d.RemoveFunction objFun).2.dlgtMap.nodes
      have hfr : (d.RemoveFunction objFun).2.dlgtMap.nodes.filter
            (fun x => decide (x.2.category = 4))
          = d.dlgtMap.nodes.filter (fun x => decide (x.2.category = 4)) := by
        unfold MultiDelegate.RemoveFunction
        apply MultiDelegate.RemoveIf_frame
        intro x _ hpx
        cases hv : x.2 <;> simp [hv] at hpx
        simp [IDelegate.category]
      exact hkeep _ hfr
    | removeObject c ob objFun =>
      exfalso
      apply hgone
      show e ∈ (d.RemoveObject c ob objFun).2.dlgtMap.nodes
      have hfr : (d.RemoveObject c ob objFun).2.dlgtMap.nodes.filter
            (fun x => decide (x.2.category = 4))
          = d.dlgtMap.nodes.filter (fun x => decide (x.2.category = 4)) := by
        unfold MultiDelegate.RemoveObject
        apply MultiDelegate.RemoveIf_frame
        intro x _ hpx
        cases hv : x.2 <;> simp [hv] at hpx
        simp [IDelegate.category]
      exact hkeep _ hfr
    | removeSafeObj c sh objFun =>
      exfalso
      apply hgone
      show e ∈ (d.RemoveSafeObj hp c sh objFun).2.dlgtMap.nodes
      have hfr : (d.RemoveSafeObj hp c sh objFun).2.dlgtMap.nodes.filter
            (fun x => decide (x.2.category = 4))
          = d.dlgtMap.nodes.filter (fun x => decide (x.2.category = 4)) := by
        unfold MultiDelegate.RemoveSafeObj
        apply MultiDelegate.RemoveIf_frame
        intro x _ hpx
        cases hv : x.2 <;> simp [hv] at hpx
        simp [IDelegate.category]
      exact hkeep _ hfr
    | removeSafeObjWeak c wp objFun =>
      exfalso
      apply hgone
      show e ∈ (d.RemoveSafeObjWeak hp c wp objFun).2.dlgtMap.nodes
      unfold MultiDelegate.RemoveSafeObjWeak
      split
      · have hfr : (d.RemoveSafeObj hp c (wp.lock hp) objFun).2.dlgtMap.nodes.filter
              (fun x => decide (x.2.category = 4))
            = d.dlgtMap.nodes.filter (fun x => decide (x.2.category = 4)) := by
          unfold MultiDelegate.RemoveSafeObj
          apply MultiDelegate.RemoveIf_frame
          intro x _ hpx
          cases hv : x.2 <;> simp [hv] at hpx
          simp [IDelegate.category]
        exact hkeep _ hfr
      · exact he
    | clear => exact Or.inr rfl
  all_goals
    intro e he
    simp [he]


/-! ## Removal by weak target -/

/-- The body of `Remove(w, m)` with a weak target whose object has been destroyed returns
false and leaves the delegate as it was, whatever is registered; the
entries stay removable through their handle (`Remove(h)` returns true for a handle whose
key is registered and leaves no entry under that key) and through `Clear`. -/
theorem MultiDelegate.RemoveSafeObjWeak_expired {σ : Type} (hp : Heap σ) (d : MultiDelegate)
    (cls : Nat) (wk : WeakPtr) (m : Nat) (h : DelegateHandle)
    (hexp : wk.expired hp = true) :
    d.RemoveSafeObjWeak hp cls wk m = (false, d) ∧
    ((∃ e ∈ d.dlgtMap.nodes, e.1 = h.ToString) →
      (d.Remove h).1 = true ∧ ∀ e ∈ (d.Remove h).2.dlgtMap.nodes, e.1 ≠ h.ToString) ∧
    d.Clear.dlgtMap.nodes = [] := by
  refine ⟨?_, ?_, rfl⟩
  · unfold MultiDelegate.RemoveSafeObjWeak
    simp [hexp]
  · intro hreg
    refine ⟨?_, ?_⟩
    · show decide ((d.dlgtMap.erase h.ToString).1 ≠ 0) = true
      rw [decide_eq_true_iff]
      exact (UnorderedMap.erase_count_ne_zero _ _).mpr hreg
    · intro e he
      have : e ∈ d.dlgtMap.nodes.filter (fun e => decide (e.1 ≠ h.ToString)) := he
      simpa using (List.mem_filter.mp this).2

/-! ## A callable that raises during BroadCast -/

theorem MultiDelegate.broadCastLoop_append {σ ε A : Type} (P : Program σ ε A Unit)
    (args : A) (pre rest : List (String × IDelegate)) (w : World σ A)
    (hpre : (MultiDelegate.broadCastLoop P args pre w).1 = Except.ok ()) :
    MultiDelegate.broadCastLoop P args (pre ++ rest) w
      = MultiDelegate.broadCastLoop P args rest
          (MultiDelegate.broadCastLoop P args pre w).2 := by
  induction pre generalizing w with
  | nil => rfl
  | cons it pre ih =>
    rcases hr : it.2.invoke P args w with ⟨r, w1⟩
    cases r with
    | error e => simp [MultiDelegate.broadCastLoop, hr] at hpre
    | ok u =>
      simp only [MultiDelegate.broadCastLoop, hr, List.cons_append] at hpre ⊢
      exact ih w1 hpre

/-- Every `BroadCast` that fails stopped at an entry that raised that failure, after the
entries before it returned. -/
theorem MultiDelegate.broadCastLoop_error {σ ε A : Type} (P : Program σ ε A Unit)
    (args : A) (l : List (String × IDelegate)) (w : World σ A) (e : ε)
    (herr : (MultiDelegate.broadCastLoop P args l w).1 = Except.error e) :
    ∃ pre it post, l = pre ++ it :: post ∧
      (MultiDelegate.broadCastLoop P args pre w).1 = Except.ok () ∧
      (it.2.invoke P args (MultiDelegate.broadCastLoop P args pre w).2).1
        = Except.error e := by
  induction l generalizing w with
  | nil => simp [MultiDelegate.broadCastLoop] at herr
  | cons it rest ih =>
    rcases hr : it.2.invoke P args w with ⟨r, w1⟩
    cases r with
    | error e1 =>
      simp only [MultiDelegate.broadCastLoop, hr] at herr
      refine ⟨[], it, rest, rfl, rfl, ?_⟩
      simp only [MultiDelegate.broadCastLoop, hr]
      exact herr
    | ok u =>
      simp only [MultiDelegate.broadCastLoop, hr] at herr
      obtain ⟨pre, it2, post, hl, h1, h2⟩ := ih w1 herr
      refine ⟨it :: pre, it2, post, by rw [hl]; rfl, ?_, ?_⟩
      · simp only [MultiDelegate.broadCastLoop, hr]; exact h1
      · simp only [MultiDelegate.broadCastLoop, hr]; exact h2

/-- C12. When an entry `it` of the collection raises `e` during `BroadCast`, the entries
before it in iteration order having returned: `BroadCast` raises that same `e`; it leaves
the world the failing call left; the entries entered are those before `it`, each once and
in order, then `it`, and no entry after `it`; the failure is the one raised by the callable
of `it`, which is the last user code run. `BroadCast` yields a result and a world only:
the collection is no output of it. -/
theorem MultiDelegate.BroadCast_raises {σ ε A : Type} (P : Program σ ε A Unit)
    (d : MultiDelegate) (args : A) (w : World σ A) (pre post : List (String × IDelegate))
    (it : String × IDelegate) (e : ε)
    (hnodes : d.dlgtMap.nodes = pre ++ it :: post)
    (hpre : (MultiDelegate.broadCastLoop P args pre w).1 = Except.ok ())
    (hfail : (it.2.invoke P args (MultiDelegate.broadCastLoop P args pre w).2).1
      = Except.error e) :
    (MultiDelegate.BroadCast P d args w).1 = Except.error e ∧
    (MultiDelegate.BroadCast P d args w).2
      = (it.2.invoke P args (MultiDelegate.broadCastLoop P args pre w).2).2 ∧
    (MultiDelegate.BroadCast P d args w).2.invoked
      = w.invoked ++ (pre ++ [it]).map (fun x => (x.2, args)) ∧
    (P it.2.callee args (MultiDelegate.broadCastLoop P args pre w).2.heap).1
      = Except.error e ∧
    (MultiDelegate.BroadCast P d args w).2.calls
      = (MultiDelegate.broadCastLoop P args pre w).2.calls ++ [(it.2.callee, args)] := by
  have hB : MultiDelegate.BroadCast P d args w
      = (Except.error e, (it.2.invoke P args (MultiDelegate.broadCastLoop P args pre w).2).2) := by
    unfold MultiDelegate.BroadCast
    rw [hnodes, MultiDelegate.broadCastLoop_append P args pre (it :: post) w hpre]
    rcases hr : it.2.invoke P args (MultiDelegate.broadCastLoop P args pre w).2 with ⟨r, w1⟩
    rw [hr] at hfail
    simp only at hfail
    subst hfail
    simp only [MultiDelegate.broadCastLoop, hr]
  obtain ⟨k, _, k1, k2⟩ := MultiDelegate.broadCastLoop_invoked P args pre w
  rw [k2 hpre, List.take_length] at k1
  have halive : it.2.dead (MultiDelegate.broadCastLoop P args pre w).2.heap = false := by
    by_contra hd
    simp only [Bool.not_eq_false] at hd
    rw [IDelegate.invoke_eq, hd] at hfail
    simp at hfail
  rw [hB]
  refine ⟨rfl, rfl, ?_, ?_, ?_⟩
  · simp only
    rw [IDelegate.invoke_invoked, k1]
    simp
  · rw [IDelegate.invoke_eq, halive] at hfail
    simpa [World.call, World.enter] using hfail
  · simp only
    rw [IDelegate.invoke_eq, halive]
    simp [World.call, World.enter]

/-! ## Runs of operations -/

theorem UnorderedMap.mem_assign {V : Type} (m : UnorderedMap V) (slot : Nat) (k : String)
    (v : V) (e : String × V) (he : e ∈ (m.assign slot k v).nodes) :
    e.1 = k ∨ e ∈ m.nodes := by
  by_cases h : k ∈ m.nodes.map Prod.fst
  · rw [UnorderedMap.assign_nodes_bound m slot k v h] at he
    obtain ⟨x, hx, hxe⟩ := List.mem_map.mp he
    by_cases hk : x.1 = k
    · left; rw [← hxe]; simp [hk]
    · right; rw [← hxe]; simpa [hk] using hx
  · rw [UnorderedMap.assign_nodes_fresh m slot k v h] at he
    rcases (mem_insertAt _ _ _ _).mp he with he | he
    · left; rw [he]
    · right; exact he

theorem MultiDelegate.RemoveSafeObjWeak_eq {σ : Type} (h : Heap σ) (d : MultiDelegate)
    (cls : Nat) (wk : WeakPtr) (m : Nat) :
    ∃ p : String × IDelegate → Bool, d.RemoveSafeObjWeak h cls wk m = d.RemoveIf p := by
  unfold MultiDelegate.RemoveSafeObjWeak
  split
  · exact ⟨_, rfl⟩
  · exact ⟨fun _ => false, (MultiDelegate.RemoveIf_none d _ (fun _ _ => rfl)).symm⟩

theorem Op.run_self {σ : Type} (h : Heap σ) (o : Op) (d : MultiDelegate) :
    (o.run h d).self = d.self := by
  cases o with
  | add op => simp [Op.run, AddOp.run_eq]
  | remove handle => rfl
  | removeFunction objFun => exact (MultiDelegate.RemoveIf_fields d _).1
  | removeObject cls obj objFun => exact (MultiDelegate.RemoveIf_fields d _).1
  | removeSafeObj cls objShared objFun => exact (MultiDelegate.RemoveIf_fields d _).1
  | removeSafeObjWeak cls objWeak objFun =>
    obtain ⟨p, hp⟩ := MultiDelegate.RemoveSafeObjWeak_eq h d cls objWeak objFun
    simp only [Op.run, hp]
    exact (MultiDelegate.RemoveIf_fields d _).1
  | clear => rfl

theorem Op.run_dlgtId {σ : Type} (h : Heap σ) (o : Op) (d : MultiDelegate) :
    (o.run h d).dlgtId = if o.isAdd then (d.dlgtId + 1) % 2 ^ 32 else d.dlgtId := by
  cases o with
  | add op => simp [Op.run, Op.isAdd, AddOp.run_eq]
  | remove handle => rfl
  | removeFunction objFun => exact (MultiDelegate.RemoveIf_fields d _).2
  | removeObject cls obj objFun => exact (MultiDelegate.RemoveIf_fields d _).2
  | removeSafeObj cls objShared objFun => exact (MultiDelegate.RemoveIf_fields d _).2
  | removeSafeObjWeak cls objWeak objFun =>
    obtain ⟨p, hp⟩ := MultiDelegate.RemoveSafeObjWeak_eq h d cls objWeak objFun
    simp only [Op.run, hp, Op.isAdd]
    exact (MultiDelegate.RemoveIf_fields d _).2
  | clear => rfl

/-- A node registered after an operation was registered before it, or carries the key of
the handle the operation, an add, issued. -/
theorem Op.run_nodes {σ : Type} (h : Heap σ) (o : Op) (d : MultiDelegate)
    (e : String × IDelegate) (he : e ∈ (o.run h d).dlgtMap.nodes) :
    e ∈ d.dlgtMap.nodes ∨ ∃ op, o = Op.add op ∧ e.1 = (op.handle h d).ToString := by
  have hif : ∀ p : String × IDelegate → Bool,
      e ∈ (d.RemoveIf p).2.dlgtMap.nodes → e ∈ d.dlgtMap.nodes := by
    intro p hm
    rw [MultiDelegate.RemoveIf_nodes] at hm
    exact (List.mem_filter.mp hm).1
  cases o with
  | add op =>
    simp only [Op.run, AddOp.run_eq] at he
    rcases UnorderedMap.mem_assign _ _ _ _ _ he with hk | hm
    · exact Or.inr ⟨op, rfl, hk⟩
    · exact Or.inl hm
  | remove handle =>
    left
    have : e ∈ d.dlgtMap.nodes.filter (fun x => decide (x.1 ≠ handle.ToString)) := he
    exact (List.mem_filter.mp this).1
  | removeFunction objFun => exact Or.inl (hif _ he)
  | removeObject cls obj objFun => exact Or.inl (hif _ he)
  | removeSafeObj cls objShared objFun => exact Or.inl (hif _ he)
  | removeSafeObjWeak cls objWeak objFun =>
    obtain ⟨p, hp⟩ := MultiDelegate.RemoveSafeObjWeak_eq h d cls objWeak objFun
    simp only [Op.run, hp] at he
    exact Or.inl (hif _ he)
  | clear => cases he

theorem MultiDelegate.runOps_cons {σ : Type} (s : Heap σ × Op) (rest : List (Heap σ × Op))
    (d : MultiDelegate) :
    MultiDelegate.runOps (s :: rest) d = MultiDelegate.runOps rest (s.2.run s.1 d) := rfl

theorem MultiDelegate.addCount_cons {σ : Type} (s : Heap σ × Op)
    (rest : List (Heap σ × Op)) :
    MultiDelegate.addCount (s :: rest)
      = MultiDelegate.addCount rest + (if s.2.isAdd then 1 else 0) := by
  unfold MultiDelegate.addCount
  rw [List.countP_cons]

/-- The delegate's address is kept, the counter advances by the number of adds modulo
`2 ^ 32`, and every key is the key of a handle with a single-digit category tag owned by
this delegate. -/
theorem MultiDelegate.runOps_inv {σ : Type} (self : Nat) (steps : List (Heap σ × Op))
    (d : MultiDelegate) (c : Nat) (hs : d.self = self) (hc : d.dlgtId = c % 2 ^ 32)
    (hk : ∀ e ∈ d.dlgtMap.nodes, ∃ t i b, t < 10 ∧
      e.1 = (DelegateHandle.mk t i self b).ToString) :
    (MultiDelegate.runOps steps d).self = self ∧
    (MultiDelegate.runOps steps d).dlgtId = (c + MultiDelegate.addCount steps) % 2 ^ 32 ∧
    ∀ e ∈ (MultiDelegate.runOps steps d).dlgtMap.nodes, ∃ t i b, t < 10 ∧
      e.1 = (DelegateHandle.mk t i self b).ToString := by
  induction steps generalizing d c with
  | nil => exact ⟨hs, by simpa [MultiDelegate.addCount] using hc, hk⟩
  | cons s rest ih =>
    rw [MultiDelegate.runOps_cons, MultiDelegate.addCount_cons]
    have hs' : (s.2.run s.1 d).self = self := by rw [Op.run_self, hs]
    have hk' : ∀ e ∈ (s.2.run s.1 d).dlgtMap.nodes, ∃ t i b, t < 10 ∧
        e.1 = (DelegateHandle.mk t i self b).ToString := by
      intro e he
      rcases Op.run_nodes s.1 s.2 d e he with hm | ⟨op, _, hkey⟩
      · exact hk e hm
      · refine ⟨(op.handle s.1 d).tdlgt, d.dlgtId, (op.handle s.1 d).bind,
          AddOp.handle_tdlgt s.1 op d, ?_⟩
        rw [hkey, ← hs, ← AddOp.handle_eta]
    by_cases ha : s.2.isAdd = true
    · have hc' : (s.2.run s.1 d).dlgtId = (c + 1) % 2 ^ 32 := by
        rw [Op.run_dlgtId, if_pos ha, hc]; omega
      obtain ⟨r1, r2, r3⟩ := ih _ (c + 1) hs' hc' hk'
      refine ⟨r1, ?_, r3⟩
      rw [r2, if_pos ha]
      congr 1
      omega
    · have hc' : (s.2.run s.1 d).dlgtId = c % 2 ^ 32 := by
        rw [Op.run_dlgtId, if_neg ha, hc]
      obtain ⟨r1, r2, r3⟩ := ih _ c hs' hc' hk'
      refine ⟨r1, ?_, r3⟩
      rw [r2, if_neg ha]
      rfl

theorem MultiDelegate.runOps_new_inv {σ : Type} (self init : Nat)
    (steps : List (Heap σ × Op)) :
    (MultiDelegate.runOps steps (MultiDelegate.new self init)).self = self ∧
    (MultiDelegate.runOps steps (MultiDelegate.new self init)).dlgtId
      = (init + MultiDelegate.addCount steps) % 2 ^ 32 ∧
    ∀ e ∈ (MultiDelegate.runOps steps (MultiDelegate.new self init)).dlgtMap.nodes,
      ∃ t i b, t < 10 ∧ e.1 = (DelegateHandle.mk t i self b).ToString :=
  MultiDelegate.runOps_inv self steps (MultiDelegate.new self init) init rfl rfl
    (fun e he => by cases he)

/-- The ids handed out by the adds of a run are the successive counter values. -/
theorem MultiDelegate.issued_idlgt {σ : Type} (steps : List (Heap σ × Op))
    (d : MultiDelegate) (c : Nat) (hc : d.dlgtId = c % 2 ^ 32) :
    (MultiDelegate.issued steps d).map DelegateHandle.idlgt
      = (List.range (MultiDelegate.addCount steps)).map (fun k => (c + k) % 2 ^ 32) := by
  induction steps generalizing d c with
  | nil => simp [MultiDelegate.issued, MultiDelegate.addCount]
  | cons s rest ih =>
    obtain ⟨h, o⟩ := s
    rw [MultiDelegate.addCount_cons]
    cases o with
    | add op =>
      have hc' : (op.run h d).2.dlgtId = (c + 1) % 2 ^ 32 := by
        rw [AddOp.run_eq]; simp only; rw [hc]; omega
      simp only [MultiDelegate.issued, Op.isAdd, if_true, List.map_cons]
      rw [ih _ (c + 1) hc', List.range_succ_eq_map, List.map_cons, List.map_map]
      congr 1
      · rw [AddOp.run_eq]; simp only
        rw [AddOp.handle_idlgt, hc]; rfl
      · apply List.map_congr_left
        intro k _
        simp only [Function.comp]
        congr 1
        omega
    | remove handle =>
      simp only [MultiDelegate.issued, Op.isAdd]
      exact ih _ c (by rw [Op.run_dlgtId]; exact hc)
    | removeFunction objFun =>
      simp only [MultiDelegate.issued, Op.isAdd]
      exact ih _ c (by rw [Op.run_dlgtId]; exact hc)
    | removeObject cls obj objFun =>
      simp only [MultiDelegate.issued, Op.isAdd]
      exact ih _ c (by rw [Op.run_dlgtId]; exact hc)
    | removeSafeObj cls objShared objFun =>
      simp only [MultiDelegate.issued, Op.isAdd]
      exact ih _ c (by rw [Op.run_dlgtId]; exact hc)
    | removeSafeObjWeak cls objWeak objFun =>
      simp only [MultiDelegate.issued, Op.isAdd]
      exact ih _ c (by rw [Op.run_dlgtId]; exact hc)
    | clear =>
      simp only [MultiDelegate.issued, Op.isAdd]
      exact ih _ c (by rw [Op.run_dlgtId]; exact hc)

/-! ## Ids -/

/-- C11, as the code has it. On a delegate built from a newly constructed one by adds,
removals and clears, the `k`-th add (counting from `0`) is assigned the id
`(c + k) % 2 ^ 32`, where `c` is the value of the counter at construction. So each id is
strictly greater than the id of every earlier add as long as the counter has not passed
`2 ^ 32 - 1`, and the ids of at most `2 ^ 32` adds are pairwise different. -/
theorem MultiDelegate.issued_ids {σ : Type} (self init : Nat)
    (steps : List (Heap σ × Op)) :
    (MultiDelegate.issued steps (MultiDelegate.new self init)).map DelegateHandle.idlgt
      = (List.range (MultiDelegate.addCount steps)).map (fun k => (init + k) % 2 ^ 32) ∧
    (init % 2 ^ 32 + MultiDelegate.addCount steps ≤ 2 ^ 32 →
      ((MultiDelegate.issued steps (MultiDelegate.new self init)).map
        DelegateHandle.idlgt).Pairwise (fun a b => a < b)) ∧
    (MultiDelegate.addCount steps ≤ 2 ^ 32 →
      ((MultiDelegate.issued steps (MultiDelegate.new self init)).map
        DelegateHandle.idlgt).Nodup) := by
  have hids := MultiDelegate.issued_idlgt steps (MultiDelegate.new self init) init rfl
  refine ⟨hids, ?_, ?_⟩
  · intro hb
    rw [hids, List.pairwise_map]
    refine (List.pairwise_lt_range _).imp_of_mem ?_
    intro a b ha hb' hab
    rw [List.mem_range] at ha hb'
    omega
  · intro hb
    rw [hids]
    unfold List.Nodup
    rw [List.pairwise_map]
    refine (List.pairwise_lt_range _).imp_of_mem ?_
    intro a b ha hb' hab
    rw [List.mem_range] at ha hb'
    omega

/-- Instance of C11: three adds and a removal on a delegate whose counter starts at `7`. -/
theorem MultiDelegate.issued_ids_witness :
    (7 % 2 ^ 32 + MultiDelegate.addCount
        [(world10.heap, Op.add (AddOp.AddFunction 0 100)),
         (world10.heap, Op.removeFunction 100),
         (world10.heap, Op.add (AddOp.AddAnyFunc 0 3)),
         (world10.heap, Op.add (AddOp.AddFunction 0 100))] ≤ 2 ^ 32) ∧
    ((MultiDelegate.issued
        [(world10.heap, Op.add (AddOp.AddFunction 0 100)),
         (world10.heap, Op.removeFunction 100),
         (world10.heap, Op.add (AddOp.AddAnyFunc 0 3)),
         (world10.heap, Op.add (AddOp.AddFunction 0 100))]
        (MultiDelegate.new 4096 7)).map DelegateHandle.idlgt).Pairwise (fun a b => a < b) :=
  ⟨by decide,
    (MultiDelegate.issued_ids 4096 7
      [(world10.heap, Op.add (AddOp.AddFunction 0 100)),
       (world10.heap, Op.removeFunction 100),
       (world10.heap, Op.add (AddOp.AddAnyFunc 0 3)),
       (world10.heap, Op.add (AddOp.AddFunction 0 100))]).2.1 (by decide)⟩

/-- C11 fails as stated. On the delegate at address `4096` constructed with id counter
`0`, the first add is assigned id `0`; after `2 ^ 32 - 1` rounds of adding and removing a
free function the next add is assigned id `4294967295` and the add after it id `0`, which
is not greater than the ids assigned before and is the id of the first add again. -/
theorem MultiDelegate.issued_ids_counterexample :
    ((MultiDelegate.new 4096 0).AddFunction 0 9).1.idlgt = 0 ∧
    ((MultiDelegate.churn 9 (2 ^ 32 - 1) (MultiDelegate.new 4096 0)).AddFunction
        0 100).1.idlgt = 4294967295 ∧
    (((MultiDelegate.churn 9 (2 ^ 32 - 1) (MultiDelegate.new 4096 0)).AddFunction
        0 100).2.AddFunction 0 200).1.idlgt = 0 := by
  have hS : MultiDelegate.churn 9 (2 ^ 32 - 1) (MultiDelegate.new 4096 0)
      = { self := 4096, dlgtId := 4294967295, dlgtMap := UnorderedMap.empty } := by
    rw [MultiDelegate.churn_eq]
    · congr 1
    · decide
    · intro id hmem
      cases hmem
  rw [hS]
  decide

/-! ## Stale and foreign handles -/

theorem MultiDelegate.runOps_append {σ : Type} (s1 s2 : List (Heap σ × Op))
    (d : MultiDelegate) :
    MultiDelegate.runOps (s1 ++ s2) d = MultiDelegate.runOps s2 (MultiDelegate.runOps s1 d) := by
  simp [MultiDelegate.runOps, List.foldl_append]

theorem MultiDelegate.addCount_append {σ : Type} (s1 s2 : List (Heap σ × Op)) :
    MultiDelegate.addCount (s1 ++ s2)
      = MultiDelegate.addCount s1 + MultiDelegate.addCount s2 := by
  unfold MultiDelegate.addCount
  rw [List.countP_append]

/-- A key issued with counter value `i0` that is not registered stays unregistered while
the counter runs from `n > i0` up to at most `2 ^ 32`. -/
theorem MultiDelegate.runOps_key_absent {σ : Type} (self init i0 t b : Nat)
    (hself : self ≠ 0) (ht : t < 10) (steps : List (Heap σ × Op)) (d : MultiDelegate)
    (n : Nat) (hs : d.self = self) (hc : d.dlgtId = (init + n) % 2 ^ 32) (hi : i0 < n)
    (hN : n + MultiDelegate.addCount steps ≤ 2 ^ 32)
    (habs : (DelegateHandle.mk t ((init + i0) % 2 ^ 32) self b).ToString
      ∉ d.dlgtMap.nodes.map Prod.fst) :
    (DelegateHandle.mk t ((init + i0) % 2 ^ 32) self b).ToString
      ∉ (MultiDelegate.runOps steps d).dlgtMap.nodes.map Prod.fst := by
  induction steps generalizing d n with
  | nil => exact habs
  | cons s rest ih =>
    rw [MultiDelegate.runOps_cons]
    rw [MultiDelegate.addCount_cons] at hN
    have hs' : (s.2.run s.1 d).self = self := by rw [Op.run_self, hs]
    have habs' : (DelegateHandle.mk t ((init + i0) % 2 ^ 32) self b).ToString
        ∉ (s.2.run s.1 d).dlgtMap.nodes.map Prod.fst := by
      intro hmem
      obtain ⟨e, he, hk⟩ := List.mem_map.mp hmem
      rcases Op.run_nodes s.1 s.2 d e he with hm | ⟨op, hop, hkey⟩
      · exact habs (by rw [← hk]; exact List.mem_map_of_mem _ hm)
      · rw [hkey] at hk
        have hinj := ToString_inj_of _ _ (AddOp.handle_tdlgt s.1 op d) ht
          (by rw [AddOp.handle_pdlgt, hs]; exact hself) hself hk
        have hid := congrArg DelegateHandle.idlgt hinj
        rw [AddOp.handle_idlgt, hc] at hid
        simp only at hid
        have ha : s.2.isAdd = true := by rw [hop]; rfl
        rw [if_pos ha] at hN
        omega
    by_cases ha : s.2.isAdd = true
    · rw [if_pos ha] at hN
      exact ih _ (n + 1) hs' (by rw [Op.run_dlgtId, if_pos ha, hc]; omega) (by omega)
        (by omega) habs'
    · rw [if_neg ha] at hN
      exact ih _ n hs' (by rw [Op.run_dlgtId, if_neg ha, hc]) hi (by omega) habs'

/-- C13. On a delegate at a non-null address built from a newly constructed one by adds,
removals and clears, with fewer than `2 ^ 32` adds in total: take the handle returned by
one of the adds; once no entry is registered under its key (after `Remove(h)`, an
identity-based `Remove` or `Clear`), then after any further adds, removals and clears
`Remove(h)` returns false and leaves the delegate as it is, so it removes no binding added
later. -/
theorem MultiDelegate.Remove_stale_handle {σ : Type} (self init : Nat)
    (s1 s2 s3 : List (Heap σ × Op)) (h0 : Heap σ) (op : AddOp) (hself : self ≠ 0)
    (hN : MultiDelegate.addCount (s1 ++ (h0, Op.add op) :: (s2 ++ s3)) < 2 ^ 32)
    (hgone : (op.run h0 (MultiDelegate.runOps s1 (MultiDelegate.new self init))).1.ToString
      ∉ (MultiDelegate.runOps s2
          (op.run h0 (MultiDelegate.runOps s1 (MultiDelegate.new self init))).2
        ).dlgtMap.nodes.map Prod.fst) :
    (MultiDelegate.runOps s3 (MultiDelegate.runOps s2
        (op.run h0 (MultiDelegate.runOps s1 (MultiDelegate.new self init))).2)).Remove
      (op.run h0 (MultiDelegate.runOps s1 (MultiDelegate.new self init))).1
    = (false, MultiDelegate.runOps s3 (MultiDelegate.runOps s2
        (op.run h0 (MultiDelegate.runOps s1 (MultiDelegate.new self init))).2)) := by
  have e12 : MultiDelegate.runOps s2
        (op.run h0 (MultiDelegate.runOps s1 (MultiDelegate.new self init))).2
      = MultiDelegate.runOps (s1 ++ (h0, Op.add op) :: s2) (MultiDelegate.new self init) := by
    rw [MultiDelegate.runOps_append, MultiDelegate.runOps_cons]
    rfl
  obtain ⟨a1, a2, _⟩ := MultiDelegate.runOps_new_inv (σ := σ) self init s1
  obtain ⟨b1, b2, _⟩ := MultiDelegate.runOps_new_inv (σ := σ) self init
    (s1 ++ (h0, Op.add op) :: s2)
  rw [MultiDelegate.addCount_append, MultiDelegate.addCount_cons] at b2
  rw [MultiDelegate.addCount_append, MultiDelegate.addCount_cons,
    MultiDelegate.addCount_append] at hN
  simp only [Op.isAdd, if_true] at hN b2
  have hhd : (op.run h0 (MultiDelegate.runOps s1 (MultiDelegate.new self init))).1
      = ⟨(op.handle h0 (MultiDelegate.runOps s1 (MultiDelegate.new self init))).tdlgt,
          (init + MultiDelegate.addCount s1) % 2 ^ 32, self,
          (op.handle h0 (MultiDelegate.runOps s1 (MultiDelegate.new self init))).bind⟩ := by
    rw [AddOp.run_eq]
    simp only
    exact (AddOp.handle_eta h0 op _).trans (by rw [a1, a2])
  rw [e12] at hgone ⊢
  apply MultiDelegate.Remove_absent
  rw [hhd] at hgone ⊢
  exact MultiDelegate.runOps_key_absent self init (MultiDelegate.addCount s1) _ _ hself
    (AddOp.handle_tdlgt h0 op _) s3 _
    (MultiDelegate.addCount s1 + (MultiDelegate.addCount s2 + 1)) b1
    (by rw [b2]) (by omega) (by omega) hgone


theorem MultiDelegate.Remove_key_gone (d : MultiDelegate) (h : DelegateHandle) :
    h.ToString ∉ (d.Remove h).2.dlgtMap.nodes.map Prod.fst := by
  intro hmem
  obtain ⟨e, he, hk⟩ := List.mem_map.mp hmem
  have : e ∈ d.dlgtMap.nodes.filter (fun x => decide (x.1 ≠ h.ToString)) := he
  have hne := (List.mem_filter.mp this).2
  simp only [ne_eq, decide_not, Bool.not_eq_true', decide_eq_false_iff_not] at hne
  exact hne hk

theorem MultiDelegate.Clear_key_gone (d : MultiDelegate) (h : DelegateHandle) :
    h.ToString ∉ d.Clear.dlgtMap.nodes.map Prod.fst := by
  intro hmem
  cases hmem

/-- Instance of C13: on a delegate whose counter starts at `4294967295`, the function at
`100` is added, removed through its handle, and added again. -/
theorem MultiDelegate.Remove_stale_handle_witness :
    ((4096 : Nat) ≠ 0 ∧
     MultiDelegate.addCount (([] : List (Heap Nat × Op)) ++
        (world10.heap, Op.add (AddOp.AddFunction 0 100)) ::
        ([(world10.heap, Op.remove ⟨0, 4294967295, 4096, 100⟩)] ++
         [(world10.heap, Op.add (AddOp.AddFunction 0 100))])) < 2 ^ 32 ∧
     ((AddOp.AddFunction 0 100).run world10.heap
        (MultiDelegate.runOps ([] : List (Heap Nat × Op)) (MultiDelegate.new 4096 4294967295))).1.ToString
      ∉ (MultiDelegate.runOps [(world10.heap, Op.remove ⟨0, 4294967295, 4096, 100⟩)]
          ((AddOp.AddFunction 0 100).run world10.heap
            (MultiDelegate.runOps ([] : List (Heap Nat × Op)) (MultiDelegate.new 4096 4294967295))).2
        ).dlgtMap.nodes.map Prod.fst) ∧
    (MultiDelegate.runOps [(world10.heap, Op.add (AddOp.AddFunction 0 100))]
      (MultiDelegate.runOps [(world10.heap, Op.remove ⟨0, 4294967295, 4096, 100⟩)]
        ((AddOp.AddFunction 0 100).run world10.heap
          (MultiDelegate.runOps ([] : List (Heap Nat × Op)) (MultiDelegate.new 4096 4294967295))).2)).Remove
      ((AddOp.AddFunction 0 100).run world10.heap
        (MultiDelegate.runOps ([] : List (Heap Nat × Op)) (MultiDelegate.new 4096 4294967295))).1
    = (false, MultiDelegate.runOps [(world10.heap, Op.add (AddOp.AddFunction 0 100))]
      (MultiDelegate.runOps [(world10.heap, Op.remove ⟨0, 4294967295, 4096, 100⟩)]
        ((AddOp.AddFunction 0 100).run world10.heap
          (MultiDelegate.runOps ([] : List (Heap Nat × Op)) (MultiDelegate.new 4096 4294967295))).2)) :=
  ⟨⟨by decide, by decide, by decide⟩,
    MultiDelegate.Remove_stale_handle 4096 4294967295 []
      [(world10.heap, Op.remove ⟨0, 4294967295, 4096, 100⟩)]
      [(world10.heap, Op.add (AddOp.AddFunction 0 100))] world10.heap
      (AddOp.AddFunction 0 100) (by decide) (by decide) (by decide)⟩

/-- C17, as the code has it. For two delegates at different, non-null addresses (as two
delegates alive at the same time are), each built from a newly constructed one by adds,
removals and clears, and the handle returned by an add on the second: `Remove` of that
handle on the first returns false and leaves the first as it is, whatever category, id and
bound address its own entries have. -/
theorem MultiDelegate.Remove_foreign_handle {σ : Type} (selfA initA selfB initB : Nat)
    (sA sB : List (Heap σ × Op)) (h0 : Heap σ) (op : AddOp)
    (hA : selfA ≠ 0) (hB : selfB ≠ 0) (hAB : selfA ≠ selfB) :
    (MultiDelegate.runOps sA (MultiDelegate.new selfA initA)).Remove
      (op.run h0 (MultiDelegate.runOps sB (MultiDelegate.new selfB initB))).1
    = (false, MultiDelegate.runOps sA (MultiDelegate.new selfA initA)) := by
  obtain ⟨_, _, akeys⟩ := MultiDelegate.runOps_new_inv (σ := σ) selfA initA sA
  obtain ⟨b1, _, _⟩ := MultiDelegate.runOps_new_inv (σ := σ) selfB initB sB
  apply MultiDelegate.Remove_absent
  intro hmem
  obtain ⟨e, he, hk⟩ := List.mem_map.mp hmem
  obtain ⟨t, i, b, ht, hkey⟩ := akeys e he
  rw [hkey, AddOp.run_eq] at hk
  simp only at hk
  have hinj := ToString_inj_of _ _ ht (AddOp.handle_tdlgt h0 op _) hA
    (by rw [AddOp.handle_pdlgt, b1]; exact hB) hk
  have hp := congrArg DelegateHandle.pdlgt hinj
  rw [AddOp.handle_pdlgt, b1] at hp
  exact hAB hp

/-- Instance of C17: both delegates start their counter at `0` and add the function at
`100`, so the first holds an entry with the category, id and bound address of the handle
issued by the second. -/
theorem MultiDelegate.Remove_foreign_handle_witness :
    ((4096 : Nat) ≠ 0 ∧ (8192 : Nat) ≠ 0 ∧ (4096 : Nat) ≠ 8192) ∧
    (MultiDelegate.runOps [(world10.heap, Op.add (AddOp.AddFunction 0 100))]
        (MultiDelegate.new 4096 0)).dlgtMap.nodes
      = [("000x10000x64", IDelegate.FuncDelegate 100)] ∧
    ((AddOp.AddFunction 0 100).run world10.heap
        (MultiDelegate.runOps ([] : List (Heap Nat × Op)) (MultiDelegate.new 8192 0))).1
      = ⟨0, 0, 8192, 100⟩ ∧
    (MultiDelegate.runOps [(world10.heap, Op.add (AddOp.AddFunction 0 100))]
        (MultiDelegate.new 4096 0)).Remove
      ((AddOp.AddFunction 0 100).run world10.heap
        (MultiDelegate.runOps ([] : List (Heap Nat × Op)) (MultiDelegate.new 8192 0))).1
    = (false, MultiDelegate.runOps [(world10.heap, Op.add (AddOp.AddFunction 0 100))]
        (MultiDelegate.new 4096 0)) :=
  ⟨by decide, by decide, by decide,
    MultiDelegate.Remove_foreign_handle 4096 0 8192 0
      [(world10.heap, Op.add (AddOp.AddFunction 0 100))] [] world10.heap
      (AddOp.AddFunction 0 100) (by decide) (by decide) (by decide)⟩

/-- Instance of C12: the free function at address `13` raises between two callables that
return. -/
theorem MultiDelegate.BroadCast_raises_witness :
    ((((MultiDelegate.new 4096 0).AddFunction 0 100).2.AddFunction 9 13).2.AddFunction
        9 200).2.dlgtMap.nodes
      = [("000x10000x64", IDelegate.FuncDelegate 100)] ++
        ("010x10000xd", IDelegate.FuncDelegate 13) ::
        [("020x10000xc8", IDelegate.FuncDelegate 200)] ∧
    (MultiDelegate.BroadCast counterProgramVoid
      ((((MultiDelegate.new 4096 0).AddFunction 0 100).2.AddFunction 9 13).2.AddFunction
        9 200).2 0 world10).1 = Except.error "raised" ∧
    (MultiDelegate.BroadCast counterProgramVoid
      ((((MultiDelegate.new 4096 0).AddFunction 0 100).2.AddFunction 9 13).2.AddFunction
        9 200).2 0 world10).2.invoked
      = world10.invoked ++ ([("000x10000x64", IDelegate.FuncDelegate 100)] ++
          [("010x10000xd", IDelegate.FuncDelegate 13)]).map (fun x => (x.2, 0)) :=
  ⟨by decide,
    (MultiDelegate.BroadCast_raises counterProgramVoid
      ((((MultiDelegate.new 4096 0).AddFunction 0 100).2.AddFunction 9 13).2.AddFunction
        9 200).2 0 world10 [("000x10000x64", IDelegate.FuncDelegate 100)]
      [("020x10000xc8", IDelegate.FuncDelegate 200)]
      ("010x10000xd", IDelegate.FuncDelegate 13) "raised" (by decide) rfl rfl).1,
    (MultiDelegate.BroadCast_raises counterProgramVoid
      ((((MultiDelegate.new 4096 0).AddFunction 0 100).2.AddFunction 9 13).2.AddFunction
        9 200).2 0 world10 [("000x10000x64", IDelegate.FuncDelegate 100)]
      [("020x10000xc8", IDelegate.FuncDelegate 200)]
      ("010x10000xd", IDelegate.FuncDelegate 13) "raised" (by decide) rfl rfl).2.2.1⟩

/-- Instance of C16: the arbitrary-callable entry of a delegate disappears through
`Remove` with its handle. -/
theorem MultiDelegate.Remove_identity_frame_witness :
    ((Op.remove ⟨4, 7, 4096, 0⟩).isAdd = false ∧
      ("470x10000", IDelegate.AnyFunDelegate 1)
        ∈ ((MultiDelegate.new 4096 7).AddAnyFunc 0 1).2.dlgtMap.nodes ∧
      (IDelegate.AnyFunDelegate 1).category = 4 ∧
      ("470x10000", IDelegate.AnyFunDelegate 1)
        ∉ ((Op.remove ⟨4, 7, 4096, 0⟩).run world10.heap
            ((MultiDelegate.new 4096 7).AddAnyFunc 0 1).2).dlgtMap.nodes) ∧
    ((∃ h : DelegateHandle, Op.remove ⟨4, 7, 4096, 0⟩ = Op.remove h ∧ h.ToString = "470x10000") ∨
      Op.remove ⟨4, 7, 4096, 0⟩ = Op.clear) :=
  ⟨by decide,
    (MultiDelegate.Remove_identity_frame world10.heap
      ((MultiDelegate.new 4096 7).AddAnyFunc 0 1).2 0 0 0 0 ⟨none, 0⟩ ⟨none, 0⟩).2.2
      (Op.remove ⟨4, 7, 4096, 0⟩) ("470x10000", IDelegate.AnyFunDelegate 1)
      (by decide) (by decide) (by decide) (by decide)⟩

/-- C16 fails as stated. On the delegate at address `4096` constructed with id counter
`7`, the callable `1` is added with `AddAnyFunc`; after `2 ^ 32 - 1` rounds of adding and
removing a free function the id counter is `7` again, and adding the callable `2` with
`AddAnyFunc` overwrites the entry: the arbitrary-callable entry of callable `1` has
disappeared through an add, with neither `Remove(handle)` nor `Clear`. -/
theorem MultiDelegate.AddAnyFunc_overwrite_counterexample :
    ("470x10000", IDelegate.AnyFunDelegate 1)
      ∈ (MultiDelegate.churn 9 (2 ^ 32 - 1)
          ((MultiDelegate.new 4096 7).AddAnyFunc 0 1).2).dlgtMap.nodes ∧
    (Op.add (AddOp.AddAnyFunc 0 2)).isAdd = true ∧
    ((Op.add (AddOp.AddAnyFunc 0 2)).run world10.heap
        (MultiDelegate.churn 9 (2 ^ 32 - 1)
          ((MultiDelegate.new 4096 7).AddAnyFunc 0 1).2)).dlgtMap.nodes
      = [("470x10000", IDelegate.AnyFunDelegate 2)] ∧
    ("470x10000", IDelegate.AnyFunDelegate 1)
      ∉ ((Op.add (AddOp.AddAnyFunc 0 2)).run world10.heap
          (MultiDelegate.churn 9 (2 ^ 32 - 1)
            ((MultiDelegate.new 4096 7).AddAnyFunc 0 1).2)).dlgtMap.nodes := by
  have hS : MultiDelegate.churn 9 (2 ^ 32 - 1) ((MultiDelegate.new 4096 7).AddAnyFunc 0 1).2
      = { self := 4096, dlgtId := 7,
          dlgtMap := ((MultiDelegate.new 4096 7).AddAnyFunc 0 1).2.dlgtMap } := by
    rw [MultiDelegate.churn_eq]
    · congr 1
    · decide
    · intro id hmem
      have hn : ((MultiDelegate.new 4096 7).AddAnyFunc 0 1).2.dlgtMap.nodes.map Prod.fst
          = ["470x10000"] := by decide
      have hs : ((MultiDelegate.new 4096 7).AddAnyFunc 0 1).2.self = 4096 := rfl
      rw [hn, hs] at hmem
      simp only [List.mem_singleton] at hmem
      have hd := congrArg String.data hmem
      simp only [DelegateHandle.ToString, showUInt] at hd
      have h0 : Nat.toDigits 10 0 = ['0'] := by decide
      rw [h0] at hd
      simp at hd
  rw [hS]
  decide

/-- C17 fails as stated. A delegate at address `4096` with id counter `0` adds the function
at `100` and returns the handle with tag `0`, id `0`, owner `4096` and bound address `100`;
it is destroyed, and another delegate is constructed at the same address `4096` with id
counter `0` and adds the same function. `Remove` of the first delegate's handle on the
second returns true and erases the second's entry. -/
theorem MultiDelegate.Remove_foreign_handle_counterexample :
    ((MultiDelegate.new 4096 0).AddFunction 0 100).1 = ⟨0, 0, 4096, 100⟩ ∧
    ((MultiDelegate.new 4096 0).AddFunction 0 100).2.dlgtMap.nodes
      = [("000x10000x64", IDelegate.FuncDelegate 100)] ∧
    (((MultiDelegate.new 4096 0).AddFunction 0 100).2.Remove ⟨0, 0, 4096, 100⟩).1 = true ∧
    (((MultiDelegate.new 4096 0).AddFunction 0 100).2.Remove
      ⟨0, 0, 4096, 100⟩).2.dlgtMap.nodes = [] := by
  decide

/-! ## Members no call can reach -/

/-- C8. No call of `Remove(obj, m)` is well-formed, and none of `AddObject`, which alone
would register a raw-pointer-method entry: their declarations name the member type `FunT`
of `ObjFuncDelegate`, which declares `FunType` only. The members for free functions, whose
declarations name `FunType`, can be called. -/
theorem Member.RemoveObject_not_callable :
    Member.RemoveObject.callable = false ∧
    Member.AddObject.callable = false ∧
    Member.RemoveObject.paramType = some (VariantClass.ObjFuncDelegate, "FunT") ∧
    VariantClass.ObjFuncDelegate.typedefs = ["FunType"] ∧
    Member.RemoveFunction.callable = true ∧
    Member.AddFunction.callable = true := by
  decide

/-- C9. No call of `Remove(s, m)` with a shared target is well-formed, and none of
`AddSafeObj`, which alone would register a lifetime-checked entry: their declarations name
the member type `FunT` of `ObjFuncDelegate`, which declares `FunType` only. -/
theorem Member.RemoveSafeObj_not_callable :
    Member.RemoveSafeObj.callable = false ∧
    Member.AddSafeObj.callable = false ∧
    Member.RemoveSafeObj.paramType = some (VariantClass.ObjFuncDelegate, "FunT") ∧
    VariantClass.ObjFuncDelegate.typedefs = ["FunType"] := by
  decide

/-- C15. No call of `Remove(w, m)` with a weak target is well-formed, nor of the
`Remove(s, m)` it forwards to, nor of the two `AddSafeObj` overloads, which alone would
register an entry bound to that object: their declarations name the member type `FunT` of
`ObjFuncDelegate`, which declares `FunType` only. -/
theorem Member.RemoveSafeObjWeak_not_callable :
    Member.RemoveSafeObjWeak.callable = false ∧
    Member.RemoveSafeObj.callable = false ∧
    Member.AddSafeObjWeak.callable = false ∧
    Member.AddSafeObj.callable = false ∧
    Member.RemoveSafeObjWeak.paramType = some (VariantClass.ObjFuncDelegate, "FunT") := by
  decide

end xxd
